import Mathlib

/-!
Shallow embedding of the WebGPU fragment-shader kernel of this repository
(the WGSL code in src/constants.ts, BOILERPLATE_SHADER_WGSL) over an
arbitrary linear ordered field F.  The transcendental builtins of the GPU
(sqrt, sin, cos, fract, pow, exp) are supplied by a record of primitive
functions, so every definition is an executable Lean function; theorems
assume only the algebraic specifications of those primitives that they
need, and witnesses instantiate them with the real functions over ℝ.
-/

namespace WGSL

variable {F : Type} [LinearOrderedField F]

/-- A 2-component vector, mirroring WGSL vec2f. -/
structure Vec2 (F : Type) where
  x : F
  y : F
deriving Repr, DecidableEq

/-- A 3-component vector, mirroring WGSL vec3f. -/
structure Vec3 (F : Type) where
  x : F
  y : F
  z : F
deriving Repr, DecidableEq

/-- A 4-component vector, mirroring WGSL vec4f. -/
structure Vec4 (F : Type) where
  x : F
  y : F
  z : F
  w : F
deriving Repr, DecidableEq

/-- The .xyz swizzle of a vec4f. -/
def Vec4.xyz (v : Vec4 F) : Vec3 F := ⟨v.x, v.y, v.z⟩

/-- Componentwise vector addition. -/
def vadd (a b : Vec3 F) : Vec3 F := ⟨a.x + b.x, a.y + b.y, a.z + b.z⟩

/-- Componentwise vector subtraction. -/
def vsub (a b : Vec3 F) : Vec3 F := ⟨a.x - b.x, a.y - b.y, a.z - b.z⟩

/-- Componentwise vector multiplication (WGSL vec * vec). -/
def vmul (a b : Vec3 F) : Vec3 F := ⟨a.x * b.x, a.y * b.y, a.z * b.z⟩

/-- Scalar times vector (WGSL f32 * vec3f, also vec3f * f32). -/
def smul (s : F) (v : Vec3 F) : Vec3 F := ⟨s * v.x, s * v.y, s * v.z⟩

/-- Vector divided by a scalar (WGSL vec3f / f32). -/
def vdivs (v : Vec3 F) (s : F) : Vec3 F := ⟨v.x / s, v.y / s, v.z / s⟩

/-- Vector plus a broadcast scalar (WGSL vec3f + f32). -/
def vadds (v : Vec3 F) (s : F) : Vec3 F := ⟨v.x + s, v.y + s, v.z + s⟩

/-- Componentwise negation. -/
def vneg (v : Vec3 F) : Vec3 F := ⟨-v.x, -v.y, -v.z⟩

/-- Componentwise absolute value (WGSL abs on vec3f). -/
def vabs (v : Vec3 F) : Vec3 F := ⟨|v.x|, |v.y|, |v.z|⟩

/-- Componentwise maximum of two vectors (WGSL max on vec3f). -/
def vmax (a b : Vec3 F) : Vec3 F := ⟨max a.x b.x, max a.y b.y, max a.z b.z⟩

/-- Dot product. -/
def vdot (a b : Vec3 F) : F := a.x * b.x + a.y * b.y + a.z * b.z

/-- Cross product, WGSL orientation. -/
def vcross (a b : Vec3 F) : Vec3 F :=
  ⟨a.y * b.z - a.z * b.y, a.z * b.x - a.x * b.z, a.x * b.y - a.y * b.x⟩

/-- The record of non-rational GPU builtins the kernel uses.  Supplying
these as data keeps every definition executable; theorems hypothesise the
algebraic laws they need and witnesses use the real functions over ℝ. -/
structure Prim (F : Type) where
  sqrt : F → F
  sin : F → F
  cos : F → F
  fract : F → F
  powf : F → F → F
  exp : F → F

/-- Euclidean length of a vec3f (WGSL length). -/
def vlength (P : Prim F) (v : Vec3 F) : F := P.sqrt (vdot v v)

/-- Euclidean length of a vec2f (WGSL length). -/
def vlength2 (P : Prim F) (v : Vec2 F) : F := P.sqrt (v.x * v.x + v.y * v.y)

/-- WGSL normalize: v / length(v). -/
def vnormalize (P : Prim F) (v : Vec3 F) : Vec3 F := vdivs v (vlength P v)

/-- Componentwise fract of a vec3f. -/
def vfract (P : Prim F) (v : Vec3 F) : Vec3 F := ⟨P.fract v.x, P.fract v.y, P.fract v.z⟩

/-- Componentwise floor of a vec3f, via the identity floor x = x - fract x. -/
def vfloor (P : Prim F) (v : Vec3 F) : Vec3 F := vsub v (vfract P v)

/-- WGSL mix on scalars: x * (1 - a) + y * a. -/
def mixF (x y a : F) : F := x * (1 - a) + y * a

/-- WGSL mix on vec3f with a scalar interpolant. -/
def vmix (a b : Vec3 F) (t : F) : Vec3 F := ⟨mixF a.x b.x t, mixF a.y b.y t, mixF a.z b.z t⟩

/-- WGSL mix on vec3f with a vec3f interpolant (componentwise). -/
def vmixv (a b t : Vec3 F) : Vec3 F := ⟨mixF a.x b.x t.x, mixF a.y b.y t.y, mixF a.z b.z t.z⟩

/-- WGSL clamp: min(max(x, lo), hi). -/
def clampF (x lo hi : F) : F := min (max x lo) hi

/-- WGSL smoothstep: cubic Hermite of the clamped normalized argument. -/
def smoothstep (e0 e1 x : F) : F :=
  let t := clampF ((x - e0) / (e1 - e0)) 0 1
  t * t * (3 - 2 * t)

/-- WGSL reflect(e, n) = e - 2 * dot(n, e) * n. -/
def reflectV (e n : Vec3 F) : Vec3 F := vsub e (smul (2 * vdot n e) n)

/-- The shader constant PI (the literal written in the source). -/
def PI : F := 3.14159265359

/-- The shader constant EPSILON. -/
def EPS : F := 0.0001

/-- A 3x3 matrix as in the WGSL mat3x3f constructor: nine entries given
column by column. -/
structure Mat3 (F : Type) where
  e0 : F
  e1 : F
  e2 : F
  e3 : F
  e4 : F
  e5 : F
  e6 : F
  e7 : F
  e8 : F

/-- Matrix-vector product: the linear combination of the columns. -/
def mulVec (m : Mat3 F) (p : Vec3 F) : Vec3 F :=
  ⟨m.e0 * p.x + m.e3 * p.y + m.e6 * p.z,
   m.e1 * p.x + m.e4 * p.y + m.e7 * p.z,
   m.e2 * p.x + m.e5 * p.y + m.e8 * p.z⟩

/-- The uniform block of the shader (struct Uniforms in the source). -/
structure Uniforms (F : Type) where
  resolution : Vec2 F
  time : F
  dt : F
  cameraPos : Vec4 F
  mouse : Vec4 F
  animSpeed : F
  detail : F
  vignette : F
  metallic : F
  baseColor : Vec4 F
  grainStrength : F
  lightAz : F
  lightEl : F
  isRendering : F
  aberrationStrength : F
  electricSpeed : F
  electricIntensity : F
  electricColor : Vec4 F
  audio : Vec4 F

/-- The default host parameters (the initial ShaderParam values of the
renderer component) at time 0 with no audio: animSpeed 0.2, detail 0.35,
vignette 0.2, metallic 1.0, baseColor (0.8,0.8,0.85), grain 0, electric
speed 0.8, intensity 12, color (0.1,0.6,1.0); camera at the default orbit
position; the vec4 w components are padding the kernel never reads. -/
def defaultU : Uniforms F where
  resolution := ⟨800, 600⟩
  time := 0
  dt := 0
  cameraPos := ⟨0, 1.35, 3.96, 0⟩
  mouse := ⟨0, 0, 0, 0⟩
  animSpeed := 0.2
  detail := 0.35
  vignette := 0.2
  metallic := 1
  baseColor := ⟨0.8, 0.8, 0.85, 0⟩
  grainStrength := 0
  lightAz := 0.1
  lightEl := 0.6
  isRendering := 0
  aberrationStrength := 0
  electricSpeed := 0.8
  electricIntensity := 12
  electricColor := ⟨0.1, 0.6, 1, 0⟩
  audio := ⟨0, 0, 0, 0⟩

/-- The default parameters with the electric-arc intensity set to zero
(the host slider turned all the way down). -/
def defaultUE0 : Uniforms F where
  resolution := ⟨800, 600⟩
  time := 0
  dt := 0
  cameraPos := ⟨0, 1.35, 3.96, 0⟩
  mouse := ⟨0, 0, 0, 0⟩
  animSpeed := 0.2
  detail := 0.35
  vignette := 0.2
  metallic := 1
  baseColor := ⟨0.8, 0.8, 0.85, 0⟩
  grainStrength := 0
  lightAz := 0.1
  lightEl := 0.6
  isRendering := 0
  aberrationStrength := 0
  electricSpeed := 0.8
  electricIntensity := 0
  electricColor := ⟨0.1, 0.6, 1, 0⟩
  audio := ⟨0, 0, 0, 0⟩

/-- fn rotate: axis-angle rotation via the explicit mat3x3f of the source. -/
def rotate (P : Prim F) (p : Vec3 F) (angle : F) (axis : Vec3 F) : Vec3 F :=
  let a := vnormalize P axis
  let s := P.sin angle
  let c := P.cos angle
  let r := 1 - c
  let m : Mat3 F :=
    ⟨a.x * a.x * r + c, a.y * a.x * r - a.z * s, a.z * a.x * r + a.y * s,
     a.x * a.y * r + a.z * s, a.y * a.y * r + c, a.z * a.y * r - a.x * s,
     a.x * a.z * r - a.y * s, a.y * a.z * r + a.x * s, a.z * a.z * r + c⟩
  mulVec m p

/-- fn hash: deterministic pseudo-random scalar from a vec3f. -/
def hashW (P : Prim F) (p : Vec3 F) : F :=
  let p3 := vfract P (smul 0.1031 p)
  let d := vdot p3 ⟨p3.y + 19.19, p3.z + 19.19, p3.x + 19.19⟩
  P.fract ((p3.x + p3.y) * p3.z + d)

/-- fn noise: trilinear value noise over hashW at the lattice corners. -/
def noiseW (P : Prim F) (p : Vec3 F) : F :=
  let i := vfloor P p
  let f := vfract P p
  let u : Vec3 F := ⟨f.x * f.x * (3 - 2 * f.x), f.y * f.y * (3 - 2 * f.y),
                     f.z * f.z * (3 - 2 * f.z)⟩
  mixF
    (mixF (mixF (hashW P (vadd i ⟨0, 0, 0⟩)) (hashW P (vadd i ⟨1, 0, 0⟩)) u.x)
          (mixF (hashW P (vadd i ⟨0, 1, 0⟩)) (hashW P (vadd i ⟨1, 1, 0⟩)) u.x) u.y)
    (mixF (mixF (hashW P (vadd i ⟨0, 0, 1⟩)) (hashW P (vadd i ⟨1, 0, 1⟩)) u.x)
          (mixF (hashW P (vadd i ⟨0, 1, 1⟩)) (hashW P (vadd i ⟨1, 1, 1⟩)) u.x) u.y) u.z

/-- The loop of fn fbm, with the loop state (val, amp, pp) explicit. -/
def fbmAux (P : Prim F) : Nat → F → F → Vec3 F → F
  | 0, val, _amp, _pp => val
  | n + 1, val, amp, pp => fbmAux P n (val + amp * noiseW P pp) (amp * 0.5) (smul 2.02 pp)

/-- fn fbm: 4 octaves of value noise. -/
def fbm (P : Prim F) (p : Vec3 F) : F := fbmAux P 4 0 0.5 p

/-- The loop of fn sparkNoise, with the octave index i and the state
(val, amp, pp) explicit. -/
def sparkAux (P : Prim F) (t : F) : Nat → Nat → F → F → Vec3 F → F
  | 0, _i, val, _amp, _pp => val
  | n + 1, i, val, amp, pp =>
    let drift : Vec3 F := ⟨P.sin (t * 0.5 + (i : F)), t * (1 + (i : F) * 0.5),
                           P.cos (t * 0.3 + (i : F) * 2)⟩
    let nv := noiseW P (vadd pp drift)
    sparkAux P t n (i + 1) (val + amp * |nv - 0.5|) (amp * 0.5)
      (vadd (smul 2.1 pp) ⟨4.03, 1.2, 9.1⟩)

/-- fn sparkNoise: 3 octaves of drifting ridged noise, remapped. -/
def sparkNoise (P : Prim F) (p : Vec3 F) (t : F) : F := 1 - sparkAux P t 3 0 0 1 p * 1.5

/-- fn sdBox. -/
def sdBox (P : Prim F) (p b : Vec3 F) : F :=
  let q := vsub (vabs p) b
  vlength P (vmax q ⟨0, 0, 0⟩) + min (max q.x (max q.y q.z)) 0

/-- One iteration of the KIFS fold of fn sdFractal: abs, three conditional
swaps sorting the components in descending order, the affine contraction,
and the audio-reactive sinusoidal warp of the z component. -/
def foldStep (P : Prim F) (u : Uniforms F) (z : Vec3 F) : Vec3 F :=
  let z1 := vabs z
  let z2 := if z1.x < z1.y then (⟨z1.y, z1.x, z1.z⟩ : Vec3 F) else z1
  let z3 := if z2.x < z2.z then (⟨z2.z, z2.y, z2.x⟩ : Vec3 F) else z2
  let z4 := if z3.y < z3.z then (⟨z3.x, z3.z, z3.y⟩ : Vec3 F) else z3
  let k := 1.2 * (u.detail * 0.5 + 0.5)
  let z5 : Vec3 F := ⟨z4.x * 2 - k, z4.y * 2 - k, z4.z * 2 - k⟩
  let warp := u.audio.y * 0.2
  ⟨z5.x, z5.y, z5.z + P.sin (z5.x * 2 + u.time) * warp * 0.05⟩

/-- The KIFS fold loop with its full state (z, scale, trap), as written. -/
def foldLoop (P : Prim F) (u : Uniforms F) : Nat → Vec3 F × F × F → Vec3 F × F × F
  | 0, s => s
  | n + 1, (z, scale, trap) =>
    let z2 := foldStep P u z
    foldLoop P u n (z2, scale * 2, min trap (vlength P z2))

/-- The KIFS fold loop with the trap accumulator removed (the candidate
refinement: trap is claimed to be dead code). -/
def foldLoopNT (P : Prim F) (u : Uniforms F) : Nat → Vec3 F × F → Vec3 F × F
  | 0, s => s
  | n + 1, (z, scale) => foldLoopNT P u n (foldStep P u z, scale * 2)

/-- fn sdFractal: two time-driven rotations, the 4-iteration KIFS fold,
then the scaled intersection of a box and a sphere distance. -/
def sdFractal (P : Prim F) (u : Uniforms F) (p : Vec3 F) : F :=
  let z0 := rotate P p (u.time * u.animSpeed * 0.05) ⟨0, 1, 0⟩
  let z1 := rotate P z0 (u.time * u.animSpeed * 0.02) ⟨1, 0, 1⟩
  let st := foldLoop P u 4 (z1, 1, 1000)
  let boxDist := sdBox P st.1 ⟨1.2, 1.2, 4⟩ / st.2.1
  let sphereDist := (vlength P st.1 - 2.5) / st.2.1
  max boxDist sphereDist

/-- sdFractal with the trap computation removed, for the dead-code claim. -/
def sdFractalNT (P : Prim F) (u : Uniforms F) (p : Vec3 F) : F :=
  let z0 := rotate P p (u.time * u.animSpeed * 0.05) ⟨0, 1, 0⟩
  let z1 := rotate P z0 (u.time * u.animSpeed * 0.02) ⟨1, 0, 1⟩
  let st := foldLoopNT P u 4 (z1, 1)
  let boxDist := sdBox P st.1 ⟨1.2, 1.2, 4⟩ / st.2
  let sphereDist := (vlength P st.1 - 2.5) / st.2
  max boxDist sphereDist

/-- fn map: the biased fractal distance against the floor plane, with the
material id in the second component (1 = fractal, 2 = floor). -/
def mapW (P : Prim F) (u : Uniforms F) (p : Vec3 F) : Vec2 F :=
  let finalObj := sdFractal P u p - 0.01
  let floorHeight : F := -2.2
  let floorDist := p.y - floorHeight
  if finalObj < floorDist then ⟨finalObj, 1⟩ else ⟨floorDist, 2⟩

/-- fn calcNormal: central differences of the map distance. -/
def calcNormal (P : Prim F) (u : Uniforms F) (p : Vec3 F) : Vec3 F :=
  vnormalize P
    ⟨(mapW P u (vadd p ⟨EPS, 0, 0⟩)).x - (mapW P u (vsub p ⟨EPS, 0, 0⟩)).x,
     (mapW P u (vadd p ⟨0, EPS, 0⟩)).x - (mapW P u (vsub p ⟨0, EPS, 0⟩)).x,
     (mapW P u (vadd p ⟨0, 0, EPS⟩)).x - (mapW P u (vsub p ⟨0, 0, EPS⟩)).x⟩

/-- The loop of fn getAO with the index i and state (occ, sca) explicit. -/
def getAOAux (P : Prim F) (u : Uniforms F) (p n : Vec3 F) : Nat → Nat → F → F → F
  | 0, _i, occ, _sca => occ
  | fuel + 1, i, occ, sca =>
    let h := 0.01 + 0.12 * (i : F) / 4
    let d := (mapW P u (vadd p (smul h n))).x
    getAOAux P u p n fuel (i + 1) (occ + (h - d) * sca) (sca * 0.95)

/-- fn getAO: 5 occlusion probes along the normal. -/
def getAO (P : Prim F) (u : Uniforms F) (p n : Vec3 F) : F :=
  clampF (1 - 3 * getAOAux P u p n 5 0 0 1) 0 1 * (0.5 + 0.5 * n.y)

/-- The loop of fn getShadow with the state (t, res) explicit; the break
condition is tested after the update, as in the source. -/
def getShadowAux (P : Prim F) (u : Uniforms F) (ro rd : Vec3 F) (tmax k : F) :
    Nat → F → F → F
  | 0, _t, res => res
  | fuel + 1, t, res =>
    let h := (mapW P u (vadd ro (smul t rd))).x
    let res2 := min res (k * h / t)
    let t2 := t + clampF h 0.002 0.2
    if res2 < 0.001 ∨ tmax < t2 then res2
    else getShadowAux P u ro rd tmax k fuel t2 res2

/-- fn getShadow: 32-step soft shadow march, clamped to the unit interval. -/
def getShadow (P : Prim F) (u : Uniforms F) (ro rd : Vec3 F) (tmin tmax k : F) : F :=
  clampF (getShadowAux P u ro rd tmax k 32 tmin 1) 0 1

/-- The divisor of fn distributionGGX, including its epsilon floor. -/
def ggxDivisor (N H : Vec3 F) (roughness : F) : F :=
  let a := roughness * roughness
  let a2 := a * a
  let NdotH := max (vdot N H) 0
  let NdotH2 := NdotH * NdotH
  let denom := NdotH2 * (a2 - 1) + 1
  max (PI * denom * denom) 0.00001

/-- fn distributionGGX. -/
def distributionGGX (N H : Vec3 F) (roughness : F) : F :=
  let a := roughness * roughness
  let a2 := a * a
  a2 / ggxDivisor N H roughness

/-- The divisor of fn geometrySchlickGGX, including its epsilon floor. -/
def schlickDivisor (NdotV roughness : F) : F :=
  let r := roughness + 1
  let k := r * r / 8
  max (NdotV * (1 - k) + k) 0.00001

/-- fn geometrySchlickGGX. -/
def geometrySchlickGGX (NdotV roughness : F) : F :=
  NdotV / schlickDivisor NdotV roughness

/-- fn geometrySmith. -/
def geometrySmith (N V L : Vec3 F) (roughness : F) : F :=
  let NdotV := max (vdot N V) 0
  let NdotL := max (vdot N L) 0
  geometrySchlickGGX NdotL roughness * geometrySchlickGGX NdotV roughness

/-- fn fresnelSchlick. -/
def fresnelSchlick (P : Prim F) (cosTheta : F) (F0 : Vec3 F) : Vec3 F :=
  vadd F0 (smul (P.powf (clampF (1 - cosTheta) 0 1) 5) (vsub ⟨1, 1, 1⟩ F0))

/-- fn getSky: gradient plus key and rim highlights. -/
def getSky (P : Prim F) (rd : Vec3 F) : Vec3 F :=
  let col := vmix ⟨0.01, 0.015, 0.02⟩ ⟨0.05, 0.05, 0.06⟩ (rd.y * 0.5 + 0.5)
  let kPos := vnormalize P ⟨-0.5, 0.8, 0.5⟩
  let kSpec := max (vdot rd kPos) 0
  let col2 := vadd col (smul (smoothstep 0.9 0.99 kSpec * 4) ⟨2, 2.1, 2.3⟩)
  let rPos := vnormalize P ⟨0, 0.5, -1⟩
  let rSpec := max (vdot rd rPos) 0
  vadd col2 (smul (P.powf rSpec 100 * 2) ⟨3, 3, 3⟩)

/-- The denominator of the specular quotient in renderPBR, including its
additive epsilon. -/
def specDivisor (n v L : Vec3 F) : F :=
  4 * max (vdot n v) 0 * max (vdot n L) 0 + 0.0001

/-- The denominator of the inverse-square light attenuation in renderPBR:
the squared distance from the shaded point to the light, with no floor. -/
def attenDivisor (P : Prim F) (lPos p : Vec3 F) : F :=
  let dist := vlength P (vsub lPos p)
  dist * dist

/-- One point light of the loop in fn renderPBR; shadowed is true only for
the first (key) light. -/
def pbrLight (P : Prim F) (u : Uniforms F) (p n v F0 baseColor : Vec3 F)
    (metallic roughness : F) (lPos : Vec3 F) (lPower : F) (lCol : Vec3 F)
    (shadowed : Bool) : Vec3 F :=
  let Lv := vsub lPos p
  let dist := vlength P Lv
  let L := vnormalize P Lv
  let H := vnormalize P (vadd v L)
  let attenuation := 1 / attenDivisor P lPos p
  let radiance := smul (lPower * attenuation) lCol
  let shadow := if shadowed then getShadow P u (vadd p (smul 0.01 n)) L 0.05 dist 16 else 1
  let NDF := distributionGGX n H roughness
  let G := geometrySmith n v L roughness
  let Fr := fresnelSchlick P (max (vdot H v) 0) F0
  let num := smul (NDF * G) Fr
  let specular := vdivs num (specDivisor n v L)
  let kD := smul (1 - metallic) (vsub ⟨1, 1, 1⟩ Fr)
  let NdotL := max (vdot n L) 0
  vmul (vadd (vdivs (vmul kD baseColor) PI) specular) (smul (NdotL * shadow) radiance)

/-- fn renderPBR: three point lights plus the analytic-sky ambient term. -/
def renderPBR (P : Prim F) (u : Uniforms F) (p n v baseColor : Vec3 F)
    (metallic roughness ao : F) : Vec3 F :=
  let F0 := vmix ⟨0.04, 0.04, 0.04⟩ baseColor metallic
  let Lo := vadd
    (vadd (pbrLight P u p n v F0 baseColor metallic roughness ⟨-2, 5, 3⟩ 10 ⟨1, 0.95, 0.9⟩ true)
          (pbrLight P u p n v F0 baseColor metallic roughness ⟨5, 2, -3⟩ 5 ⟨0.8, 0.85, 1⟩ false))
    (pbrLight P u p n v F0 baseColor metallic roughness ⟨0, 4, -5⟩ 8 ⟨1, 1, 1⟩ false)
  let kS := fresnelSchlick P (max (vdot n v) 0) F0
  let kD := smul (1 - metallic) (vsub ⟨1, 1, 1⟩ kS)
  let irradiance := smul 0.15 (getSky P n)
  let diffuse := vmul irradiance baseColor
  let reflection := getSky P (reflectV (vneg v) n)
  let specIBL := smul (1 - roughness) reflection
  let ambient := smul ao (vadd (vmul kD diffuse) (vmul specIBL kS))
  vadd Lo ambient

/-- The loop of fn raymarch, fuel-indexed: test the surface hit, then the
far bound, then advance by 0.7 of the field distance. -/
def raymarchAux (P : Prim F) (u : Uniforms F) (ro rd : Vec3 F) : Nat → F → Vec3 F
  | 0, t => ⟨t, -1, 0⟩
  | fuel + 1, t =>
    let h := mapW P u (vadd ro (smul t rd))
    if h.x < EPS then ⟨t, h.y, 1⟩
    else if 30 < t then ⟨t, -1, 0⟩
    else raymarchAux P u ro rd fuel (t + h.x * 0.7)

/-- fn raymarch: 160 sphere-tracing steps from t = 0; returns (t, material,
hit flag). -/
def raymarch (P : Prim F) (u : Uniforms F) (ro rd : Vec3 F) : Vec3 F :=
  raymarchAux P u ro rd 160 0

/-- The loop of fn getGlow, fuel-indexed with the state (t, acc): break past
tEnd, evaluate the fractal field, and accumulate arc emission only within
0.4 units of the surface. -/
def getGlowAux (P : Prim F) (u : Uniforms F) (ro rd : Vec3 F) (tEnd tParams : F) :
    Nat → F → Vec3 F → Vec3 F
  | 0, _t, acc => acc
  | fuel + 1, t, acc =>
    if tEnd < t then acc
    else
      let pos := vadd ro (smul t rd)
      let geoD := sdFractal P u pos
      let acc2 :=
        if geoD < 0.4 then
          let noiseVal := sparkNoise P (smul 3.5 pos) tParams
          let distToLine := |noiseVal - 0.4|
          let intensity := 0.0003 / (distToLine * distToLine * distToLine + 0.000001)
          let branchMask := smoothstep 0.35 0.55 (noiseW P (vadd (smul 4 pos) ⟨0, tParams * 0.5, 0⟩))
          let heat := smoothstep 5 60 intensity
          let color := vmixv u.electricColor.xyz ⟨1, 1, 1⟩ ⟨heat, heat, heat⟩
          let surfaceFade := smoothstep 0.3 0 geoD
          vadd acc (smul (intensity * surfaceFade * branchMask * u.electricIntensity * 0.002) color)
        else acc
      getGlowAux P u ro rd tEnd tParams fuel (t + 0.15) acc2

/-- fn getGlow: the volumetric electric-arc march with dithered start. -/
def getGlow (P : Prim F) (u : Uniforms F) (ro rd : Vec3 F) (maxT : F) : Vec3 F :=
  let tParams := u.time * u.electricSpeed * 2
  let tEnd := min maxT 15
  let t0 := 0.5 + hashW P (smul u.time rd) * 0.2
  getGlowAux P u ro rd tEnd tParams 35 t0 ⟨0, 0, 0⟩

/-- The camera ray of one anti-aliasing sub-sample of fs_main: look-at
basis, optional jitter for sample counts above one, and the normalized
direction through the pixel. -/
def sampleRd (P : Prim F) (u : Uniforms F) (uv : Vec2 F) (i aaSamples : Nat) : Vec3 F :=
  let ro := u.cameraPos.xyz
  let ta : Vec3 F := ⟨0, -0.5, 0⟩
  let ww := vnormalize P (vsub ta ro)
  let uu := vnormalize P (vcross ww ⟨0, 1, 0⟩)
  let vv := vnormalize P (vcross uu ww)
  let offset : Vec2 F :=
    if 1 < aaSamples then
      let r1 := P.fract (P.sin ((i : F) * 12.9898 + uv.x) * 43758.5453)
      let r2 := P.fract (P.cos ((i : F) * 4.1414 + uv.y) * 53211.5543)
      ⟨(r1 - 0.5) / u.resolution.x, (r2 - 0.5) / u.resolution.y⟩
    else ⟨0, 0⟩
  let px := (-u.resolution.x + 2 * (uv.x + offset.x) * u.resolution.x) / u.resolution.y
  let py := (-u.resolution.y + 2 * (uv.y + offset.y) * u.resolution.y) / u.resolution.y
  vnormalize P (vadd (vadd (smul px uu) (smul py vv)) (smul 2 ww))

/-- The surface shading of one sub-sample of fs_main, taking the primary
raymarch result res: sky on a miss; on a hit the floor or fractal material,
PBR lighting, the optional one-bounce reflection, and distance fog. -/
def shadeSample (P : Prim F) (u : Uniforms F) (ro rd res : Vec3 F) : Vec3 F :=
  let t := res.x
  let m := res.y
  let hit := res.z
  let skyCol := smul 0.05 (getSky P rd)
  if 0.5 < hit then
    let pos := vadd ro (smul t rd)
    let nor0 := calcNormal P u pos
    let view := vneg rd
    let ao := getAO P u pos nor0
    let micro := fbm P (smul 8 pos)
    let mats :=
      if 1.5 < m then
        let f := fbm P (smul 2 pos)
        let albedo1 := vadds ⟨0.05, 0.05, 0.05⟩ (f * 0.02)
        let rough1 := 0.3 + f * 0.2
        let bump := vnormalize P ⟨fbm P (smul 10 pos), 0.5, fbm P (vadds (smul 10 pos) 1)⟩
        let nor1 := vnormalize P (vadd nor0 (smul 0.05 bump))
        let falloff := P.exp (-(vlength2 P ⟨pos.x, pos.z⟩) * 0.1)
        let rough2 := mixF rough1 1 (1 - falloff)
        let tParams := u.time * u.electricSpeed * 2
        let sparkN := sparkNoise P (smul 3.5 pos) tParams
        let arcVal := |sparkN - 0.4|
        let electricGlow := 0.0003 / (arcVal * arcVal * arcVal + 0.00001)
        let albedo2 := vadd albedo1 (smul (electricGlow * u.electricIntensity * 0.02)
          u.electricColor.xyz)
        (albedo2, rough2, (0 : F), nor1)
      else
        let curv := clampF (1 - ao) 0 1
        let albedo1 := vmix u.baseColor.xyz ⟨0.8, 0.7, 0.5⟩ (micro * 0.2)
        let rough1 := mixF u.detail 0.8 curv
        let metal1 := mixF u.metallic 0 (curv * 0.5)
        let scratches := noiseW P (vmul (smul 50 pos) ⟨1, 10, 1⟩)
        let rough2 := rough1 + scratches * 0.1
        let noiseN := fbm P (smul 20 pos)
        let nor1 := vnormalize P (vadd nor0 (smul 0.02 ⟨noiseN, noiseN, noiseN⟩))
        (albedo1, rough2, metal1, nor1)
    let albedo := mats.1
    let roughness := mats.2.1
    let metallic := mats.2.2.1
    let nor := mats.2.2.2
    let col0 := renderPBR P u pos nor view albedo metallic roughness ao
    let col1 :=
      if 0.5 < u.isRendering ∧ roughness < 0.5 then
        let rDir := reflectV rd nor
        let refRes := raymarch P u (vadd pos (smul 0.05 nor)) rDir
        if 0.5 < refRes.z then
          let rPos := vadd (vadd pos (smul 0.05 nor)) (smul refRes.x rDir)
          let rNor := calcNormal P u rPos
          let rAO := getAO P u rPos rNor
          let rLight := renderPBR P u rPos rNor (vneg rDir) u.baseColor.xyz u.metallic 0.5 rAO
          let F0 := vmix ⟨0.04, 0.04, 0.04⟩ albedo metallic
          let Fr := fresnelSchlick P (max (vdot nor view) 0) F0
          vmixv col0 rLight (smul (1 - roughness) Fr)
        else col0
      else col0
    vmix col1 ⟨0.01, 0.015, 0.02⟩ (1 - P.exp (-0.02 * t * t))
  else skyCol

/-- One full sub-sample of fs_main without the electricity pass (the color
the compositor would produce with the VolumetricArcField stage removed). -/
def sampleColorNoGlow (P : Prim F) (u : Uniforms F) (uv : Vec2 F) (i aaSamples : Nat) :
    Vec3 F :=
  let ro := u.cameraPos.xyz
  let rd := sampleRd P u uv i aaSamples
  let res := raymarch P u ro rd
  shadeSample P u ro rd res

/-- One full sub-sample of fs_main: the shaded color plus the electricity
glow when the intensity gate is open. -/
def sampleColor (P : Prim F) (u : Uniforms F) (uv : Vec2 F) (i aaSamples : Nat) : Vec3 F :=
  let ro := u.cameraPos.xyz
  let rd := sampleRd P u uv i aaSamples
  let res := raymarch P u ro rd
  let col := shadeSample P u ro rd res
  if 0.01 < u.electricIntensity then vadd col (getGlow P u ro rd res.x) else col

/-- The accumulation loop of fs_main over the anti-aliasing sub-samples. -/
def sampleSum (P : Prim F) (u : Uniforms F) (uv : Vec2 F) (aaSamples : Nat) :
    Nat → Vec3 F
  | 0 => ⟨0, 0, 0⟩
  | i + 1 => vadd (sampleSum P u uv aaSamples i) (sampleColor P u uv i aaSamples)

/-- The vignette multiplier of the post stage of fs_main. -/
def vignetteFactor (P : Prim F) (q : Vec2 F) (e : F) : F :=
  0.5 + 0.5 * P.powf (16 * q.x * q.y * (1 - q.x) * (1 - q.y)) e

/-- One channel of the tone-map stage of fs_main: exposure 1.5, the
ACES-fit rational curve with the literal coefficients of the source,
clamp to the unit interval, then gamma 1/2.2. -/
def tmChannel (P : Prim F) (x : F) : F :=
  let exposed := x * 1.5
  P.powf (clampF ((exposed * (2.51 * exposed + 0.03)) /
    (exposed * (2.43 * exposed + 0.59) + 0.14)) 0 1) (1 / 2.2)

/-- The tone-map and gamma stage of fs_main applied componentwise. -/
def toneMapGamma (P : Prim F) (c : Vec3 F) : Vec3 F :=
  ⟨tmChannel P c.x, tmChannel P c.y, tmChannel P c.z⟩

/-- fn fs_main: anti-aliased sample accumulation, averaging, vignette,
film grain, ACES tone map and gamma, with alpha fixed at 1. -/
def fs_main (P : Prim F) (u : Uniforms F) (uv : Vec2 F) : Vec4 F :=
  let aaSamples : Nat := if 0.5 < u.isRendering then 2 else 1
  let fc0 := sampleSum P u uv aaSamples aaSamples
  let fc1 := vdivs fc0 (aaSamples : F)
  let fc2 := smul (vignetteFactor P uv u.vignette) fc1
  let noiseG := P.fract (P.sin (uv.x * u.resolution.x * (12.9898 * u.time) +
    uv.y * u.resolution.y * (78.233 * u.time)) * 43758.5453)
  let fc3 := vadds fc2 ((noiseG - 0.5) * u.grainStrength)
  let fc4 := toneMapGamma P fc3
  ⟨fc4.x, fc4.y, fc4.z, 1⟩

/-- The defining property of the square-root primitive on nonnegative
arguments: nonnegative, and squaring recovers the argument. -/
def SqrtSpec (P : Prim F) : Prop := ∀ x : F, 0 ≤ x → 0 ≤ P.sqrt x ∧ P.sqrt x ^ 2 = x

/-- The sine and cosine primitives at zero. -/
def Trig0 (P : Prim F) : Prop := P.sin 0 = 0 ∧ P.cos 0 = 1

/-- The power primitive maps the unit interval into itself at the gamma
exponent 1/2.2. -/
def PowGammaRange (P : Prim F) : Prop :=
  ∀ x : F, 0 ≤ x → x ≤ 1 → 0 ≤ P.powf x (1 / 2.2) ∧ P.powf x (1 / 2.2) ≤ 1

/-- The power primitive is monotone on nonnegative bases at the gamma
exponent 1/2.2. -/
def PowGammaMono (P : Prim F) : Prop :=
  ∀ a b : F, 0 ≤ a → a ≤ b → P.powf a (1 / 2.2) ≤ P.powf b (1 / 2.2)

lemma sqrt_lb (P : Prim F) (hs : SqrtSpec P) {L x : F} (hL : 0 ≤ L) (h : L ^ 2 ≤ x) :
    L ≤ P.sqrt x := by
  have hx : 0 ≤ x := le_trans (by positivity) h
  obtain ⟨h1, h2⟩ := hs x hx
  nlinarith

lemma sqrt_ub (P : Prim F) (hs : SqrtSpec P) {B x : F} (hx : 0 ≤ x) (hB : 0 ≤ B)
    (h : x ≤ B ^ 2) : P.sqrt x ≤ B := by
  obtain ⟨h1, h2⟩ := hs x hx
  nlinarith

lemma sqrt_eval (P : Prim F) (hs : SqrtSpec P) {a x : F} (ha : 0 ≤ a) (h : x = a ^ 2) :
    P.sqrt x = a := by
  subst h
  exact le_antisymm (sqrt_ub P hs (by positivity) ha le_rfl) (sqrt_lb P hs ha le_rfl)

lemma clampF_mem (x : F) {lo hi : F} (h : lo ≤ hi) :
    lo ≤ clampF x lo hi ∧ clampF x lo hi ≤ hi := by
  unfold clampF
  constructor
  · exact le_min (le_max_right x lo) h
  · exact min_le_right _ _

lemma clampF_mono {a b : F} (lo hi : F) (h : a ≤ b) : clampF a lo hi ≤ clampF b lo hi := by
  unfold clampF
  exact min_le_min (max_le_max h le_rfl) le_rfl

lemma smoothstep_mem (e0 e1 x : F) : 0 ≤ smoothstep e0 e1 x ∧ smoothstep e0 e1 x ≤ 1 := by
  unfold smoothstep
  dsimp only
  obtain ⟨h0, h1⟩ := clampF_mem ((x - e0) / (e1 - e0)) (zero_le_one (α := F))
  set t := clampF ((x - e0) / (e1 - e0)) 0 1
  constructor
  · nlinarith
  · nlinarith [sq_nonneg (1 - t)]

lemma mixF_nonneg {x y a : F} (hx : 0 ≤ x) (hy : 0 ≤ y) (h0 : 0 ≤ a) (h1 : a ≤ 1) :
    0 ≤ mixF x y a := by
  unfold mixF
  nlinarith

/-- At a zero angle the rotation matrix of fn rotate is the identity, for
any axis, given only sin 0 = 0 and cos 0 = 1. -/
lemma rotate_zero (P : Prim F) (ht : Trig0 P) (p axis : Vec3 F) :
    rotate P p 0 axis = p := by
  obtain ⟨hsin, hcos⟩ := ht
  unfold rotate mulVec
  simp only [hsin, hcos]
  cases p
  simp only [Vec3.mk.injEq]
  refine ⟨by ring, by ring, by ring⟩

/-- The trap accumulator of the KIFS fold never feeds back into the fold
state: the fold with and without it produce the same z and scale. -/
lemma foldLoop_fst (P : Prim F) (u : Uniforms F) :
    ∀ (n : Nat) (z : Vec3 F) (scale trap : F),
      (foldLoop P u n (z, scale, trap)).1 = (foldLoopNT P u n (z, scale)).1 ∧
      (foldLoop P u n (z, scale, trap)).2.1 = (foldLoopNT P u n (z, scale)).2 := by
  intro n
  induction n with
  | zero => intro z scale trap; exact ⟨rfl, rfl⟩
  | succ m ih =>
    intro z scale trap
    simpa only [foldLoop, foldLoopNT] using
      ih (foldStep P u z) (scale * 2) (min trap (vlength P (foldStep P u z)))

/-- sdFractal never reads the trap value: it computes the same distance as
the version with the trap accumulator deleted. -/
lemma sdFractal_eq_NT (P : Prim F) (u : Uniforms F) (p : Vec3 F) :
    sdFractal P u p = sdFractalNT P u p := by
  unfold sdFractal sdFractalNT
  dsimp only
  obtain ⟨h1, h2⟩ := foldLoop_fst P u 4
    (rotate P (rotate P p (u.time * u.animSpeed * 0.05) ⟨0, 1, 0⟩)
      (u.time * u.animSpeed * 0.02) ⟨1, 0, 1⟩) 1 1000
  rw [h1, h2]

/-- At the default parameters the domain rotations have angle zero, so
sdFractal is the scaled box-sphere distance of the raw fold output. -/
lemma sdFractal_time0 (P : Prim F) (ht : Trig0 P) (p z : Vec3 F) (s : F)
    (hf : foldLoopNT P defaultU 4 (p, 1) = (z, s)) :
    sdFractal P defaultU p =
      max (sdBox P z ⟨1.2, 1.2, 4⟩ / s) ((vlength P z - 2.5) / s) := by
  rw [sdFractal_eq_NT]
  unfold sdFractalNT
  dsimp only
  have h0 : (defaultU : Uniforms F).time * (defaultU : Uniforms F).animSpeed * (0.05 : F) = 0 := by
    simp [defaultU]
  have h1 : (defaultU : Uniforms F).time * (defaultU : Uniforms F).animSpeed * (0.02 : F) = 0 := by
    simp [defaultU]
  rw [h0, h1, rotate_zero P ht, rotate_zero P ht, hf]

/-- The first fold step on a point of the positive z axis. -/
lemma foldStep_axisZ (P : Prim F) (c : F) (hc : 0 < c) :
    foldStep P (defaultU : Uniforms F) ⟨0, 0, c⟩ = ⟨2 * c - 0.81, -0.81, -0.81⟩ := by
  unfold foldStep
  dsimp only
  simp only [vabs, abs_zero, abs_of_nonneg hc.le, defaultU]
  rw [if_neg (lt_irrefl (0 : F))]
  rw [if_pos (show (⟨0, 0, c⟩ : Vec3 F).x < (⟨0, 0, c⟩ : Vec3 F).z from hc)]
  rw [if_neg (lt_irrefl (0 : F))]
  simp only [Vec3.mk.injEq]
  norm_num
  ring

/-- The first fold step on a point of the positive y axis agrees with the
z-axis case, because the component sort moves the point to the x axis. -/
lemma foldStep_axisY (P : Prim F) (c : F) (hc : 0 < c) :
    foldStep P (defaultU : Uniforms F) ⟨0, c, 0⟩ = ⟨2 * c - 0.81, -0.81, -0.81⟩ := by
  unfold foldStep
  dsimp only
  simp only [vabs, abs_zero, abs_of_nonneg hc.le, defaultU]
  rw [if_pos (show (⟨(0 : F), c, 0⟩ : Vec3 F).x < (⟨(0 : F), c, 0⟩ : Vec3 F).y from hc)]
  rw [if_neg (show ¬ (⟨c, (0 : F), 0⟩ : Vec3 F).x < (⟨c, (0 : F), 0⟩ : Vec3 F).z from
    not_lt.mpr hc.le)]
  rw [if_neg (lt_irrefl (0 : F))]
  simp only [Vec3.mk.injEq]
  norm_num
  ring

/-- A fold step on a state whose first component dominates and whose other
components have absolute value 0.81, the invariant shape of the later fold
iterations on axis points. -/
lemma foldStep_high (P : Prim F) (a b c : F) (ha : (0.81 : F) ≤ a) (hb : |b| = 0.81)
    (hc : |c| = 0.81) :
    foldStep P (defaultU : Uniforms F) ⟨a, b, c⟩ = ⟨2 * a - 0.81, 0.81, 0.81⟩ := by
  unfold foldStep
  dsimp only
  have ha0 : (0 : F) ≤ a := by linarith
  simp only [vabs, abs_of_nonneg ha0, hb, hc, defaultU]
  rw [if_neg (show ¬ (⟨a, (0.81 : F), 0.81⟩ : Vec3 F).x < (⟨a, (0.81 : F), 0.81⟩ : Vec3 F).y
    from not_lt.mpr ha)]
  rw [if_neg (show ¬ (⟨a, (0.81 : F), 0.81⟩ : Vec3 F).x < (⟨a, (0.81 : F), 0.81⟩ : Vec3 F).z
    from not_lt.mpr ha)]
  rw [if_neg (show ¬ (⟨a, (0.81 : F), 0.81⟩ : Vec3 F).y < (⟨a, (0.81 : F), 0.81⟩ : Vec3 F).z
    from lt_irrefl _)]
  simp only [Vec3.mk.injEq]
  norm_num
  ring

/-- The full 4-iteration fold of a positive z-axis point in the exact
regime: the sorted component grows affinely, the others lock at 0.81. -/
lemma foldLoopNT_axisZ (P : Prim F) (c : F) (hc : (0.84 : F) ≤ c) :
    foldLoopNT P defaultU 4 ((⟨0, 0, c⟩ : Vec3 F), 1) =
      (⟨16 * c - 12.15, 0.81, 0.81⟩, 16) := by
  have h1 := foldStep_axisZ P c (by linarith)
  have h2 := foldStep_high P (2 * c - 0.81) (-0.81) (-0.81) (by linarith)
    (by norm_num) (by norm_num)
  have h3 := foldStep_high P (2 * (2 * c - 0.81) - 0.81) 0.81 0.81 (by linarith)
    (by norm_num) (by norm_num)
  have h4 := foldStep_high P (2 * (2 * (2 * c - 0.81) - 0.81) - 0.81) 0.81 0.81 (by linarith)
    (by norm_num) (by norm_num)
  simp only [foldLoopNT, h1, h2, h3, h4]
  norm_num [Vec3.mk.injEq, Prod.ext_iff]
  ring_nf

/-- The full 4-iteration fold of a positive y-axis point, identical to the
z-axis case after the first component sort. -/
lemma foldLoopNT_axisY (P : Prim F) (c : F) (hc : (0.84 : F) ≤ c) :
    foldLoopNT P defaultU 4 ((⟨0, c, 0⟩ : Vec3 F), 1) =
      (⟨16 * c - 12.15, 0.81, 0.81⟩, 16) := by
  have h1 := foldStep_axisY P c (by linarith)
  have h2 := foldStep_high P (2 * c - 0.81) (-0.81) (-0.81) (by linarith)
    (by norm_num) (by norm_num)
  have h3 := foldStep_high P (2 * (2 * c - 0.81) - 0.81) 0.81 0.81 (by linarith)
    (by norm_num) (by norm_num)
  have h4 := foldStep_high P (2 * (2 * (2 * c - 0.81) - 0.81) - 0.81) 0.81 0.81 (by linarith)
    (by norm_num) (by norm_num)
  simp only [foldLoopNT, h1, h2, h3, h4]
  norm_num [Vec3.mk.injEq, Prod.ext_iff]
  ring_nf

/-- The exact fractal distance of an axis fold result: for fold output
(16c - 12.15, 0.81, 0.81) at scale 16 the box term wins and the distance is
c - 0.834375. -/
lemma sdFractal_axis_value (P : Prim F) (hs : SqrtSpec P) (c : F) (hc : (0.84 : F) ≤ c) :
    max (sdBox P (⟨16 * c - 12.15, 0.81, 0.81⟩ : Vec3 F) ⟨1.2, 1.2, 4⟩ / 16)
      ((vlength P (⟨16 * c - 12.15, 0.81, 0.81⟩ : Vec3 F) - 2.5) / 16) = c - 0.834375 := by
  have hbox : sdBox P (⟨16 * c - 12.15, 0.81, 0.81⟩ : Vec3 F) ⟨1.2, 1.2, 4⟩ =
      16 * c - 13.35 := by
    unfold sdBox
    dsimp only
    simp only [vsub, vabs, vmax]
    rw [abs_of_nonneg (by linarith)]
    have hq : max (16 * c - 12.15 - 1.2) (0 : F) = 16 * c - 13.35 := by
      rw [max_eq_left (by linarith)]
      ring
    have hy : max (|(0.81 : F)| - 1.2) (0 : F) = 0 := by
      rw [abs_of_nonneg (by norm_num)]
      exact max_eq_right (by norm_num)
    have hz : max (|(0.81 : F)| - 4) (0 : F) = 0 := by
      rw [abs_of_nonneg (by norm_num)]
      exact max_eq_right (by norm_num)
    rw [hq, hy, hz]
    unfold vlength vdot
    dsimp only
    rw [sqrt_eval P hs (a := 16 * c - 13.35) (by linarith) (by ring)]
    rw [abs_of_nonneg (by norm_num : (0 : F) ≤ 0.81)]
    rw [max_eq_left (by norm_num : (0.81 : F) - 4 ≤ 0.81 - 1.2),
      max_eq_left (by linarith : (0.81 : F) - 1.2 ≤ 16 * c - 12.15 - 1.2),
      min_eq_right (by linarith : (0 : F) ≤ 16 * c - 12.15 - 1.2)]
    ring
  have hsph : vlength P (⟨16 * c - 12.15, 0.81, 0.81⟩ : Vec3 F) ≤ 16 * c - 10.85 := by
    unfold vlength vdot
    dsimp only
    refine sqrt_ub P hs (by nlinarith) (by linarith) ?_
    nlinarith
  rw [hbox, max_eq_left (by linarith)]
  ring

/-- The exact fractal distance on the positive z axis at the default
parameters: sdFractal (0, 0, c) = c - 0.834375 for c at least 0.84. -/
lemma sdFractal_axisZ (P : Prim F) (hs : SqrtSpec P) (ht : Trig0 P) (c : F)
    (hc : (0.84 : F) ≤ c) :
    sdFractal P defaultU ⟨0, 0, c⟩ = c - 0.834375 := by
  rw [sdFractal_time0 P ht _ _ _ (foldLoopNT_axisZ P c hc)]
  exact sdFractal_axis_value P hs c hc

/-- The exact fractal distance on the positive y axis at the default
parameters: sdFractal (0, c, 0) = c - 0.834375 for c at least 0.84. -/
lemma sdFractal_axisY (P : Prim F) (hs : SqrtSpec P) (ht : Trig0 P) (c : F)
    (hc : (0.84 : F) ≤ c) :
    sdFractal P defaultU ⟨0, c, 0⟩ = c - 0.834375 := by
  rw [sdFractal_time0 P ht _ _ _ (foldLoopNT_axisY P c hc)]
  exact sdFractal_axis_value P hs c hc

/-- The floor branch of fn map, taken when the biased fractal distance
does not undercut the floor distance. -/
lemma mapW_floor_of (P : Prim F) (u : Uniforms F) (p : Vec3 F)
    (h : p.y + 2.2 ≤ sdFractal P u p - 0.01) : mapW P u p = ⟨p.y + 2.2, 2⟩ := by
  unfold mapW
  dsimp only
  have he : p.y - (-2.2 : F) = p.y + 2.2 := by ring
  rw [he, if_neg (not_lt.mpr h)]

/-- The fractal branch of fn map, taken when the biased fractal distance
undercuts the floor distance. -/
lemma mapW_fractal_of (P : Prim F) (u : Uniforms F) (p : Vec3 F)
    (h : sdFractal P u p - 0.01 < p.y + 2.2) :
    mapW P u p = ⟨sdFractal P u p - 0.01, 1⟩ := by
  unfold mapW
  dsimp only
  have he : p.y - (-2.2 : F) = p.y + 2.2 := by ring
  rw [he, if_pos h]

/-- One advancing iteration of the raymarch loop: no hit, inside the far
bound, step by 0.7 of the field distance. -/
lemma raymarchAux_step (P : Prim F) (u : Uniforms F) (ro rd : Vec3 F) (n : Nat)
    (t t2 hx hy : F) (hm : mapW P u (vadd ro (smul t rd)) = ⟨hx, hy⟩)
    (hh : EPS ≤ hx) (ht30 : t ≤ 30) (ht2 : t2 = t + hx * 0.7) :
    raymarchAux P u ro rd (n + 1) t = raymarchAux P u ro rd n t2 := by
  simp only [raymarchAux, hm]
  rw [if_neg (not_lt.mpr hh), if_neg (not_lt.mpr ht30), ht2]

/-- The hit iteration of the raymarch loop: the field distance dropped
below EPSILON, so the march stops with the current material. -/
lemma raymarchAux_stop (P : Prim F) (u : Uniforms F) (ro rd : Vec3 F) (n : Nat)
    (t hx hy : F) (hm : mapW P u (vadd ro (smul t rd)) = ⟨hx, hy⟩) (hh : hx < EPS) :
    raymarchAux P u ro rd (n + 1) t = ⟨t, hy, 1⟩ := by
  simp only [raymarchAux, hm]
  rw [if_pos hh]

/-- The far-bound iteration of the raymarch loop: no hit and t beyond 30,
so the march gives up with the current t and the miss sentinel. -/
lemma raymarchAux_far (P : Prim F) (u : Uniforms F) (ro rd : Vec3 F) (n : Nat)
    (t hx hy : F) (hm : mapW P u (vadd ro (smul t rd)) = ⟨hx, hy⟩)
    (hh : EPS ≤ hx) (ht : 30 < t) :
    raymarchAux P u ro rd (n + 1) t = ⟨t, -1, 0⟩ := by
  simp only [raymarchAux, hm]
  rw [if_neg (not_lt.mpr hh), if_pos ht]

/-- The sample position along the claim C1 hit ray. -/
lemma hitray_pos (t : F) :
    vadd (⟨0, 0, 20⟩ : Vec3 F) (smul t ⟨0, 0, -1⟩) = ⟨0, 0, 20 - t⟩ := by
  simp only [vadd, smul, Vec3.mk.injEq]
  refine ⟨by ring, by ring, by ring⟩

/-- The sample position along the claim C1 miss ray. -/
lemma missray_pos (t : F) :
    vadd (⟨0, 0, 20⟩ : Vec3 F) (smul t ⟨0, 1, 0⟩) = ⟨0, t, 20⟩ := by
  simp only [vadd, smul, Vec3.mk.injEq]
  refine ⟨by ring, by ring, by ring⟩

/-- fn map along the hit ray in the floor regime: the floor plane is the
nearer surface while the fractal is still more than 2.2 units away. -/
lemma mapW_hitZ_floor (P : Prim F) (hs : SqrtSpec P) (ht : Trig0 P) (t : F)
    (h : (3.044375 : F) ≤ 20 - t) :
    mapW P defaultU (vadd (⟨0, 0, 20⟩ : Vec3 F) (smul t ⟨0, 0, -1⟩)) = ⟨2.2, 2⟩ := by
  rw [hitray_pos]
  have hsd := sdFractal_axisZ P hs ht (20 - t) (by linarith)
  have hb : ((⟨0, 0, 20 - t⟩ : Vec3 F)).y + 2.2 ≤ sdFractal P defaultU ⟨0, 0, 20 - t⟩ - 0.01 := by
    dsimp only
    rw [hsd]
    linarith
  rw [mapW_floor_of P defaultU _ hb]
  norm_num

/-- fn map along the hit ray in the fractal regime: the fractal surface is
the nearer one and the field distance is exactly affine in t. -/
lemma mapW_hitZ_fract (P : Prim F) (hs : SqrtSpec P) (ht : Trig0 P) (t : F)
    (h1 : (0.84 : F) ≤ 20 - t) (h2 : 20 - t < 3.044375) :
    mapW P defaultU (vadd (⟨0, 0, 20⟩ : Vec3 F) (smul t ⟨0, 0, -1⟩)) =
      ⟨20 - t - 0.844375, 1⟩ := by
  rw [hitray_pos]
  have hsd := sdFractal_axisZ P hs ht (20 - t) h1
  have hb : sdFractal P defaultU ⟨0, 0, 20 - t⟩ - 0.01 < ((⟨0, 0, 20 - t⟩ : Vec3 F)).y + 2.2 := by
    dsimp only
    rw [hsd]
    linarith
  rw [mapW_fractal_of P defaultU _ hb, hsd]
  norm_num [Vec2.mk.injEq]
  ring

/-- fn map at the miss-ray sample point t = 0: the floor plane is the
nearer surface there. -/
lemma mapW_missP0 (P : Prim F) (hs : SqrtSpec P) (ht : Trig0 P) :
    mapW P defaultU (vadd (⟨0, 0, 20⟩ : Vec3 F) (smul (0 : F) ⟨0, 1, 0⟩)) =
      ⟨(0 : F) + 2.2, 2⟩ := by
  rw [missray_pos]
  have hf : foldLoopNT P defaultU 4 ((⟨0, 0, 20⟩ : Vec3 F), 1) =
      (⟨307.85, 0.81, 0.81⟩, 16) := by
    norm_num [foldLoopNT, foldStep, vabs, abs_eq_max_neg, max_def, defaultU, Vec3.mk.injEq,
      Prod.ext_iff]
  have hsd := sdFractal_time0 P ht _ _ _ hf
  have hlb : (37.86 : F) ≤ vlength P (⟨307.85, 0.81, 0.81⟩ : Vec3 F) := by
    unfold vlength vdot
    dsimp only
    exact sqrt_lb P hs (by norm_num) (by norm_num)
  have hb : ((⟨0, (0 : F), 20⟩ : Vec3 F)).y + 2.2 ≤
      sdFractal P defaultU ⟨0, 0, 20⟩ - 0.01 := by
    dsimp only
    rw [hsd]
    have h2 := le_max_right (sdBox P (⟨307.85, 0.81, 0.81⟩ : Vec3 F) ⟨1.2, 1.2, 4⟩ / 16)
      ((vlength P (⟨307.85, 0.81, 0.81⟩ : Vec3 F) - 2.5) / 16)
    have h3 : (0 : F) + 2.21 ≤ (vlength P (⟨307.85, 0.81, 0.81⟩ : Vec3 F) - 2.5) / 16 := by
      linarith
    linarith
  rw [mapW_floor_of P defaultU _ hb]

/-- fn map at the miss-ray sample point t = 1.54: the floor plane is the
nearer surface there. -/
lemma mapW_missP1 (P : Prim F) (hs : SqrtSpec P) (ht : Trig0 P) :
    mapW P defaultU (vadd (⟨0, 0, 20⟩ : Vec3 F) (smul (1.54 : F) ⟨0, 1, 0⟩)) =
      ⟨(1.54 : F) + 2.2, 2⟩ := by
  rw [missray_pos]
  have hf : foldLoopNT P defaultU 4 ((⟨0, 1.54, 20⟩ : Vec3 F), 1) =
      (⟨307.85, 12.49, 0.81⟩, 16) := by
    norm_num [foldLoopNT, foldStep, vabs, abs_eq_max_neg, max_def, defaultU, Vec3.mk.injEq,
      Prod.ext_iff]
  have hsd := sdFractal_time0 P ht _ _ _ hf
  have hlb : (62.5 : F) ≤ vlength P (⟨307.85, 12.49, 0.81⟩ : Vec3 F) := by
    unfold vlength vdot
    dsimp only
    exact sqrt_lb P hs (by norm_num) (by norm_num)
  have hb : ((⟨0, (1.54 : F), 20⟩ : Vec3 F)).y + 2.2 ≤
      sdFractal P defaultU ⟨0, 1.54, 20⟩ - 0.01 := by
    dsimp only
    rw [hsd]
    have h2 := le_max_right (sdBox P (⟨307.85, 12.49, 0.81⟩ : Vec3 F) ⟨1.2, 1.2, 4⟩ / 16)
      ((vlength P (⟨307.85, 12.49, 0.81⟩ : Vec3 F) - 2.5) / 16)
    have h3 : (1.54 : F) + 2.21 ≤ (vlength P (⟨307.85, 12.49, 0.81⟩ : Vec3 F) - 2.5) / 16 := by
      linarith
    linarith
  rw [mapW_floor_of P defaultU _ hb]

/-- fn map at the miss-ray sample point t = 4.158: the floor plane is the
nearer surface there. -/
lemma mapW_missP2 (P : Prim F) (hs : SqrtSpec P) (ht : Trig0 P) :
    mapW P defaultU (vadd (⟨0, 0, 20⟩ : Vec3 F) (smul (4.158 : F) ⟨0, 1, 0⟩)) =
      ⟨(4.158 : F) + 2.2, 2⟩ := by
  rw [missray_pos]
  have hf : foldLoopNT P defaultU 4 ((⟨0, 4.158, 20⟩ : Vec3 F), 1) =
      (⟨307.85, 54.378, 0.81⟩, 16) := by
    norm_num [foldLoopNT, foldStep, vabs, abs_eq_max_neg, max_def, defaultU, Vec3.mk.injEq,
      Prod.ext_iff]
  have hsd := sdFractal_time0 P ht _ _ _ hf
  have hlb : (105 : F) ≤ vlength P (⟨307.85, 54.378, 0.81⟩ : Vec3 F) := by
    unfold vlength vdot
    dsimp only
    exact sqrt_lb P hs (by norm_num) (by norm_num)
  have hb : ((⟨0, (4.158 : F), 20⟩ : Vec3 F)).y + 2.2 ≤
      sdFractal P defaultU ⟨0, 4.158, 20⟩ - 0.01 := by
    dsimp only
    rw [hsd]
    have h2 := le_max_right (sdBox P (⟨307.85, 54.378, 0.81⟩ : Vec3 F) ⟨1.2, 1.2, 4⟩ / 16)
      ((vlength P (⟨307.85, 54.378, 0.81⟩ : Vec3 F) - 2.5) / 16)
    have h3 : (4.158 : F) + 2.21 ≤ (vlength P (⟨307.85, 54.378, 0.81⟩ : Vec3 F) - 2.5) / 16 := by
      linarith
    linarith
  rw [mapW_floor_of P defaultU _ hb]

/-- fn map at the miss-ray sample point t = 8.6086: the floor plane is the
nearer surface there. -/
lemma mapW_missP3 (P : Prim F) (hs : SqrtSpec P) (ht : Trig0 P) :
    mapW P defaultU (vadd (⟨0, 0, 20⟩ : Vec3 F) (smul (8.6086 : F) ⟨0, 1, 0⟩)) =
      ⟨(8.6086 : F) + 2.2, 2⟩ := by
  rw [missray_pos]
  have hf : foldLoopNT P defaultU 4 ((⟨0, 8.6086, 20⟩ : Vec3 F), 1) =
      (⟨307.85, 125.5876, 0.81⟩, 16) := by
    norm_num [foldLoopNT, foldStep, vabs, abs_eq_max_neg, max_def, defaultU, Vec3.mk.injEq,
      Prod.ext_iff]
  have hsd := sdFractal_time0 P ht _ _ _ hf
  have hlb : (176 : F) ≤ vlength P (⟨307.85, 125.5876, 0.81⟩ : Vec3 F) := by
    unfold vlength vdot
    dsimp only
    exact sqrt_lb P hs (by norm_num) (by norm_num)
  have hb : ((⟨0, (8.6086 : F), 20⟩ : Vec3 F)).y + 2.2 ≤
      sdFractal P defaultU ⟨0, 8.6086, 20⟩ - 0.01 := by
    dsimp only
    rw [hsd]
    have h2 := le_max_right (sdBox P (⟨307.85, 125.5876, 0.81⟩ : Vec3 F) ⟨1.2, 1.2, 4⟩ / 16)
      ((vlength P (⟨307.85, 125.5876, 0.81⟩ : Vec3 F) - 2.5) / 16)
    have h3 : (8.6086 : F) + 2.21 ≤ (vlength P (⟨307.85, 125.5876, 0.81⟩ : Vec3 F) - 2.5) / 16 := by
      linarith
    linarith
  rw [mapW_floor_of P defaultU _ hb]

/-- fn map at the miss-ray sample point t = 16.17462: the floor plane is the
nearer surface there. -/
lemma mapW_missP4 (P : Prim F) (hs : SqrtSpec P) (ht : Trig0 P) :
    mapW P defaultU (vadd (⟨0, 0, 20⟩ : Vec3 F) (smul (16.17462 : F) ⟨0, 1, 0⟩)) =
      ⟨(16.17462 : F) + 2.2, 2⟩ := by
  rw [missray_pos]
  have hf : foldLoopNT P defaultU 4 ((⟨0, 16.17462, 20⟩ : Vec3 F), 1) =
      (⟨307.85, 246.64392, 0.81⟩, 16) := by
    norm_num [foldLoopNT, foldStep, vabs, abs_eq_max_neg, max_def, defaultU, Vec3.mk.injEq,
      Prod.ext_iff]
  have hsd := sdFractal_time0 P ht _ _ _ hf
  have hlb : (297 : F) ≤ vlength P (⟨307.85, 246.64392, 0.81⟩ : Vec3 F) := by
    unfold vlength vdot
    dsimp only
    exact sqrt_lb P hs (by norm_num) (by norm_num)
  have hb : ((⟨0, (16.17462 : F), 20⟩ : Vec3 F)).y + 2.2 ≤
      sdFractal P defaultU ⟨0, 16.17462, 20⟩ - 0.01 := by
    dsimp only
    rw [hsd]
    have h2 := le_max_right (sdBox P (⟨307.85, 246.64392, 0.81⟩ : Vec3 F) ⟨1.2, 1.2, 4⟩ / 16)
      ((vlength P (⟨307.85, 246.64392, 0.81⟩ : Vec3 F) - 2.5) / 16)
    have h3 : (16.17462 : F) + 2.21 ≤ (vlength P (⟨307.85, 246.64392, 0.81⟩ : Vec3 F) - 2.5) / 16 := by
      linarith
    linarith
  rw [mapW_floor_of P defaultU _ hb]

/-- fn map at the miss-ray sample point t = 29.036854: the floor plane is the
nearer surface there. -/
lemma mapW_missP5 (P : Prim F) (hs : SqrtSpec P) (ht : Trig0 P) :
    mapW P defaultU (vadd (⟨0, 0, 20⟩ : Vec3 F) (smul (29.036854 : F) ⟨0, 1, 0⟩)) =
      ⟨(29.036854 : F) + 2.2, 2⟩ := by
  rw [missray_pos]
  have hf : foldLoopNT P defaultU 4 ((⟨0, 29.036854, 20⟩ : Vec3 F), 1) =
      (⟨452.439664, 307.85, 0.81⟩, 16) := by
    norm_num [foldLoopNT, foldStep, vabs, abs_eq_max_neg, max_def, defaultU, Vec3.mk.injEq,
      Prod.ext_iff]
  have hsd := sdFractal_time0 P ht _ _ _ hf
  have hlb : (503 : F) ≤ vlength P (⟨452.439664, 307.85, 0.81⟩ : Vec3 F) := by
    unfold vlength vdot
    dsimp only
    exact sqrt_lb P hs (by norm_num) (by norm_num)
  have hb : ((⟨0, (29.036854 : F), 20⟩ : Vec3 F)).y + 2.2 ≤
      sdFractal P defaultU ⟨0, 29.036854, 20⟩ - 0.01 := by
    dsimp only
    rw [hsd]
    have h2 := le_max_right (sdBox P (⟨452.439664, 307.85, 0.81⟩ : Vec3 F) ⟨1.2, 1.2, 4⟩ / 16)
      ((vlength P (⟨452.439664, 307.85, 0.81⟩ : Vec3 F) - 2.5) / 16)
    have h3 : (29.036854 : F) + 2.21 ≤ (vlength P (⟨452.439664, 307.85, 0.81⟩ : Vec3 F) - 2.5) / 16 := by
      linarith
    linarith
  rw [mapW_floor_of P defaultU _ hb]

/-- fn map at the miss-ray sample point t = 50.9026518: the floor plane is the
nearer surface there. -/
lemma mapW_missP6 (P : Prim F) (hs : SqrtSpec P) (ht : Trig0 P) :
    mapW P defaultU (vadd (⟨0, 0, 20⟩ : Vec3 F) (smul (50.9026518 : F) ⟨0, 1, 0⟩)) =
      ⟨(50.9026518 : F) + 2.2, 2⟩ := by
  rw [missray_pos]
  have hf : foldLoopNT P defaultU 4 ((⟨0, 50.9026518, 20⟩ : Vec3 F), 1) =
      (⟨802.2924288, 307.85, 0.81⟩, 16) := by
    norm_num [foldLoopNT, foldStep, vabs, abs_eq_max_neg, max_def, defaultU, Vec3.mk.injEq,
      Prod.ext_iff]
  have hsd := sdFractal_time0 P ht _ _ _ hf
  have hlb : (853 : F) ≤ vlength P (⟨802.2924288, 307.85, 0.81⟩ : Vec3 F) := by
    unfold vlength vdot
    dsimp only
    exact sqrt_lb P hs (by norm_num) (by norm_num)
  have hb : ((⟨0, (50.9026518 : F), 20⟩ : Vec3 F)).y + 2.2 ≤
      sdFractal P defaultU ⟨0, 50.9026518, 20⟩ - 0.01 := by
    dsimp only
    rw [hsd]
    have h2 := le_max_right (sdBox P (⟨802.2924288, 307.85, 0.81⟩ : Vec3 F) ⟨1.2, 1.2, 4⟩ / 16)
      ((vlength P (⟨802.2924288, 307.85, 0.81⟩ : Vec3 F) - 2.5) / 16)
    have h3 : (50.9026518 : F) + 2.21 ≤ (vlength P (⟨802.2924288, 307.85, 0.81⟩ : Vec3 F) - 2.5) / 16 := by
      linarith
    linarith
  rw [mapW_floor_of P defaultU _ hb]

/-- The full raymarch of the miss ray of claim C1: every marched sample
takes the floor branch, t grows geometrically past the far bound, and the
march reports a miss at t = 50.9026518. -/
lemma raymarch_miss (P : Prim F) (hs : SqrtSpec P) (ht : Trig0 P) :
    raymarch P defaultU ⟨0, 0, 20⟩ ⟨0, 1, 0⟩ = ⟨50.9026518, -1, 0⟩ := by
  unfold raymarch
  rw [show (160 : Nat) = 159 + 1 from rfl,
    raymarchAux_step P defaultU _ _ 159 (0 : F) 1.54 _ _ (mapW_missP0 P hs ht)
      (by norm_num [EPS]) (by norm_num) (by norm_num)]
  rw [show (159 : Nat) = 158 + 1 from rfl,
    raymarchAux_step P defaultU _ _ 158 (1.54 : F) 4.158 _ _ (mapW_missP1 P hs ht)
      (by norm_num [EPS]) (by norm_num) (by norm_num)]
  rw [show (158 : Nat) = 157 + 1 from rfl,
    raymarchAux_step P defaultU _ _ 157 (4.158 : F) 8.6086 _ _ (mapW_missP2 P hs ht)
      (by norm_num [EPS]) (by norm_num) (by norm_num)]
  rw [show (157 : Nat) = 156 + 1 from rfl,
    raymarchAux_step P defaultU _ _ 156 (8.6086 : F) 16.17462 _ _ (mapW_missP3 P hs ht)
      (by norm_num [EPS]) (by norm_num) (by norm_num)]
  rw [show (156 : Nat) = 155 + 1 from rfl,
    raymarchAux_step P defaultU _ _ 155 (16.17462 : F) 29.036854 _ _ (mapW_missP4 P hs ht)
      (by norm_num [EPS]) (by norm_num) (by norm_num)]
  rw [show (155 : Nat) = 154 + 1 from rfl,
    raymarchAux_step P defaultU _ _ 154 (29.036854 : F) 50.9026518 _ _ (mapW_missP5 P hs ht)
      (by norm_num [EPS]) (by norm_num) (by norm_num)]
  rw [show (154 : Nat) = 153 + 1 from rfl,
    raymarchAux_far P defaultU _ _ 153 (50.9026518 : F) _ _ (mapW_missP6 P hs ht)
      (by norm_num [EPS]) (by norm_num)]

/-- The full raymarch of the hit ray of claim C1: twelve floor-branch
steps of length 1.54 followed by geometric convergence onto the fractal
surface, hitting at t = 19.15558067224375. -/
lemma raymarch_hit (P : Prim F) (hs : SqrtSpec P) (ht : Trig0 P) :
    raymarch P defaultU ⟨0, 0, 20⟩ ⟨0, 0, -1⟩ = ⟨19.15558067224375, 1, 1⟩ := by
  unfold raymarch
  rw [show (160 : Nat) = 159 + 1 from rfl,
    raymarchAux_step P defaultU _ _ 159 (0 : F) 1.54 _ _
      (mapW_hitZ_floor P hs ht 0 (by norm_num)) (by norm_num [EPS]) (by norm_num)
      (by norm_num)]
  rw [show (159 : Nat) = 158 + 1 from rfl,
    raymarchAux_step P defaultU _ _ 158 (1.54 : F) 3.08 _ _
      (mapW_hitZ_floor P hs ht 1.54 (by norm_num)) (by norm_num [EPS]) (by norm_num)
      (by norm_num)]
  rw [show (158 : Nat) = 157 + 1 from rfl,
    raymarchAux_step P defaultU _ _ 157 (3.08 : F) 4.62 _ _
      (mapW_hitZ_floor P hs ht 3.08 (by norm_num)) (by norm_num [EPS]) (by norm_num)
      (by norm_num)]
  rw [show (157 : Nat) = 156 + 1 from rfl,
    raymarchAux_step P defaultU _ _ 156 (4.62 : F) 6.16 _ _
      (mapW_hitZ_floor P hs ht 4.62 (by norm_num)) (by norm_num [EPS]) (by norm_num)
      (by norm_num)]
  rw [show (156 : Nat) = 155 + 1 from rfl,
    raymarchAux_step P defaultU _ _ 155 (6.16 : F) 7.7 _ _
      (mapW_hitZ_floor P hs ht 6.16 (by norm_num)) (by norm_num [EPS]) (by norm_num)
      (by norm_num)]
  rw [show (155 : Nat) = 154 + 1 from rfl,
    raymarchAux_step P defaultU _ _ 154 (7.7 : F) 9.24 _ _
      (mapW_hitZ_floor P hs ht 7.7 (by norm_num)) (by norm_num [EPS]) (by norm_num)
      (by norm_num)]
  rw [show (154 : Nat) = 153 + 1 from rfl,
    raymarchAux_step P defaultU _ _ 153 (9.24 : F) 10.78 _ _
      (mapW_hitZ_floor P hs ht 9.24 (by norm_num)) (by norm_num [EPS]) (by norm_num)
      (by norm_num)]
  rw [show (153 : Nat) = 152 + 1 from rfl,
    raymarchAux_step P defaultU _ _ 152 (10.78 : F) 12.32 _ _
      (mapW_hitZ_floor P hs ht 10.78 (by norm_num)) (by norm_num [EPS]) (by norm_num)
      (by norm_num)]
  rw [show (152 : Nat) = 151 + 1 from rfl,
    raymarchAux_step P defaultU _ _ 151 (12.32 : F) 13.86 _ _
      (mapW_hitZ_floor P hs ht 12.32 (by norm_num)) (by norm_num [EPS]) (by norm_num)
      (by norm_num)]
  rw [show (151 : Nat) = 150 + 1 from rfl,
    raymarchAux_step P defaultU _ _ 150 (13.86 : F) 15.4 _ _
      (mapW_hitZ_floor P hs ht 13.86 (by norm_num)) (by norm_num [EPS]) (by norm_num)
      (by norm_num)]
  rw [show (150 : Nat) = 149 + 1 from rfl,
    raymarchAux_step P defaultU _ _ 149 (15.4 : F) 16.94 _ _
      (mapW_hitZ_floor P hs ht 15.4 (by norm_num)) (by norm_num [EPS]) (by norm_num)
      (by norm_num)]
  rw [show (149 : Nat) = 148 + 1 from rfl,
    raymarchAux_step P defaultU _ _ 148 (16.94 : F) 18.48 _ _
      (mapW_hitZ_floor P hs ht 16.94 (by norm_num)) (by norm_num [EPS]) (by norm_num)
      (by norm_num)]
  rw [show (148 : Nat) = 147 + 1 from rfl,
    raymarchAux_step P defaultU _ _ 147 (18.48 : F) 18.9529375 _ _
      (mapW_hitZ_fract P hs ht 18.48 (by norm_num) (by norm_num)) (by norm_num [EPS])
      (by norm_num) (by norm_num)]
  rw [show (147 : Nat) = 146 + 1 from rfl,
    raymarchAux_step P defaultU _ _ 146 (18.9529375 : F) 19.09481875 _ _
      (mapW_hitZ_fract P hs ht 18.9529375 (by norm_num) (by norm_num)) (by norm_num [EPS])
      (by norm_num) (by norm_num)]
  rw [show (146 : Nat) = 145 + 1 from rfl,
    raymarchAux_step P defaultU _ _ 145 (19.09481875 : F) 19.137383125 _ _
      (mapW_hitZ_fract P hs ht 19.09481875 (by norm_num) (by norm_num)) (by norm_num [EPS])
      (by norm_num) (by norm_num)]
  rw [show (145 : Nat) = 144 + 1 from rfl,
    raymarchAux_step P defaultU _ _ 144 (19.137383125 : F) 19.1501524375 _ _
      (mapW_hitZ_fract P hs ht 19.137383125 (by norm_num) (by norm_num)) (by norm_num [EPS])
      (by norm_num) (by norm_num)]
  rw [show (144 : Nat) = 143 + 1 from rfl,
    raymarchAux_step P defaultU _ _ 143 (19.1501524375 : F) 19.15398323125 _ _
      (mapW_hitZ_fract P hs ht 19.1501524375 (by norm_num) (by norm_num)) (by norm_num [EPS])
      (by norm_num) (by norm_num)]
  rw [show (143 : Nat) = 142 + 1 from rfl,
    raymarchAux_step P defaultU _ _ 142 (19.15398323125 : F) 19.155132469375 _ _
      (mapW_hitZ_fract P hs ht 19.15398323125 (by norm_num) (by norm_num)) (by norm_num [EPS])
      (by norm_num) (by norm_num)]
  rw [show (142 : Nat) = 141 + 1 from rfl,
    raymarchAux_step P defaultU _ _ 141 (19.155132469375 : F) 19.1554772408125 _ _
      (mapW_hitZ_fract P hs ht 19.155132469375 (by norm_num) (by norm_num)) (by norm_num [EPS])
      (by norm_num) (by norm_num)]
  rw [show (141 : Nat) = 140 + 1 from rfl,
    raymarchAux_step P defaultU _ _ 140 (19.1554772408125 : F) 19.15558067224375 _ _
      (mapW_hitZ_fract P hs ht 19.1554772408125 (by norm_num) (by norm_num)) (by norm_num [EPS])
      (by norm_num) (by norm_num)]
  rw [show (140 : Nat) = 139 + 1 from rfl,
    raymarchAux_stop P defaultU _ _ 139 (19.15558067224375 : F) _ _
      (mapW_hitZ_fract P hs ht 19.15558067224375 (by norm_num) (by norm_num)) (by norm_num [EPS])]

/-- The glow march accumulates nothing when every sample point it can
reach before its cap stays at least 0.4 units from the fractal surface. -/
lemma getGlowAux_skip (P : Prim F) (u : Uniforms F) (ro rd : Vec3 F) (tEnd tParams : F) :
    ∀ (fuel : Nat) (t : F) (acc : Vec3 F),
      (∀ k : Nat, k < fuel → t + 0.15 * k ≤ tEnd →
        (0.4 : F) ≤ sdFractal P u (vadd ro (smul (t + 0.15 * k) rd))) →
      getGlowAux P u ro rd tEnd tParams fuel t acc = acc := by
  intro fuel
  induction fuel with
  | zero => intro t acc _; rfl
  | succ m ih =>
    intro t acc hk
    simp only [getGlowAux]
    by_cases hbr : tEnd < t
    · rw [if_pos hbr]
    · rw [if_neg hbr]
      have h0 : (0.4 : F) ≤ sdFractal P u (vadd ro (smul t rd)) := by
        have hx := hk 0 (Nat.succ_pos m) (by push_cast; simpa using not_lt.mp hbr)
        push_cast at hx
        simpa using hx
      rw [if_neg (not_lt.mpr h0)]
      refine ih (t + 0.15) acc ?_
      intro k hlt hle
      have hx := hk (k + 1) (Nat.succ_lt_succ hlt) (by push_cast; push_cast at hle; linarith)
      have he : t + 0.15 * ((k : F) + 1) = t + 0.15 + 0.15 * (k : F) := by ring
      push_cast at hx
      rw [he] at hx
      exact hx

/-- The glow march accumulates nothing when the electric intensity is 0:
every contribution carries the intensity as a factor. -/
lemma getGlowAux_izero (P : Prim F) (u : Uniforms F) (ro rd : Vec3 F) (tEnd tParams : F)
    (hI : u.electricIntensity = 0) :
    ∀ (fuel : Nat) (t : F) (acc : Vec3 F),
      getGlowAux P u ro rd tEnd tParams fuel t acc = acc := by
  intro fuel
  induction fuel with
  | zero => intro t acc; rfl
  | succ m ih =>
    intro t acc
    simp only [getGlowAux]
    by_cases hbr : tEnd < t
    · rw [if_pos hbr]
    · rw [if_neg hbr]
      by_cases hg : sdFractal P u (vadd ro (smul t rd)) < 0.4
      · rw [if_pos hg]
        rw [show ∀ a : Vec3 F, ∀ s : F,
          vadd acc (smul (s * u.electricIntensity * 0.002) a) =
            vadd acc (smul (s * u.electricIntensity * 0.002) a) from fun _ _ => rfl]
        simp only [hI, mul_zero, zero_mul, smul, vadd]
        simpa using ih (t + 0.15) ⟨acc.x + 0, acc.y + 0, acc.z + 0⟩
      · rw [if_neg hg]
        exact ih (t + 0.15) acc

/-- Every term the glow march adds is componentwise nonnegative when the
electric intensity and color are nonnegative. -/
lemma getGlowAux_nonneg (P : Prim F) (u : Uniforms F) (ro rd : Vec3 F) (tEnd tParams : F)
    (hI : 0 ≤ u.electricIntensity) (hc1 : 0 ≤ u.electricColor.x)
    (hc2 : 0 ≤ u.electricColor.y) (hc3 : 0 ≤ u.electricColor.z) :
    ∀ (fuel : Nat) (t : F) (acc : Vec3 F), 0 ≤ acc.x → 0 ≤ acc.y → 0 ≤ acc.z →
      0 ≤ (getGlowAux P u ro rd tEnd tParams fuel t acc).x ∧
      0 ≤ (getGlowAux P u ro rd tEnd tParams fuel t acc).y ∧
      0 ≤ (getGlowAux P u ro rd tEnd tParams fuel t acc).z := by
  intro fuel
  induction fuel with
  | zero => intro t acc h1 h2 h3; exact ⟨h1, h2, h3⟩
  | succ m ih =>
    intro t acc h1 h2 h3
    simp only [getGlowAux]
    by_cases hbr : tEnd < t
    · rw [if_pos hbr]; exact ⟨h1, h2, h3⟩
    · rw [if_neg hbr]
      by_cases hg : sdFractal P u (vadd ro (smul t rd)) < 0.4
      · rw [if_pos hg]
        set pos := vadd ro (smul t rd)
        set noiseVal := sparkNoise P (smul 3.5 pos) tParams with hnv
        set dl := |noiseVal - 0.4| with hdl
        have hdl0 : 0 ≤ dl := abs_nonneg _
        have hint : 0 ≤ 0.0003 / (dl * dl * dl + 0.000001) := by positivity
        obtain ⟨hb0, hb1⟩ := smoothstep_mem (0.35 : F) 0.55
          (noiseW P (vadd (smul 4 pos) ⟨0, tParams * 0.5, 0⟩))
        obtain ⟨hf0, hf1⟩ := smoothstep_mem (0.3 : F) 0
          (sdFractal P u pos)
        obtain ⟨hh0, hh1⟩ := smoothstep_mem (5 : F) 60
          (0.0003 / (dl * dl * dl + 0.000001))
        have hfac : 0 ≤ 0.0003 / (dl * dl * dl + 0.000001) *
            smoothstep 0.3 0 (sdFractal P u pos) *
            smoothstep 0.35 0.55 (noiseW P (vadd (smul 4 pos) ⟨0, tParams * 0.5, 0⟩)) *
            u.electricIntensity * 0.002 := by positivity
        refine ih (t + 0.15) _ ?_ ?_ ?_ <;>
          · simp only [vadd, smul, vmixv, Vec4.xyz]
            have hcol1 : 0 ≤ mixF u.electricColor.x 1 (smoothstep 5 60
                (0.0003 / (dl * dl * dl + 0.000001))) :=
              mixF_nonneg hc1 zero_le_one hh0 hh1
            have hcol2 : 0 ≤ mixF u.electricColor.y 1 (smoothstep 5 60
                (0.0003 / (dl * dl * dl + 0.000001))) :=
              mixF_nonneg hc2 zero_le_one hh0 hh1
            have hcol3 : 0 ≤ mixF u.electricColor.z 1 (smoothstep 5 60
                (0.0003 / (dl * dl * dl + 0.000001))) :=
              mixF_nonneg hc3 zero_le_one hh0 hh1
            first
            | (refine add_nonneg h1 (mul_nonneg hfac hcol1))
            | (refine add_nonneg h2 (mul_nonneg hfac hcol2))
            | (refine add_nonneg h3 (mul_nonneg hfac hcol3))
      · rw [if_neg hg]
        exact ih (t + 0.15) acc h1 h2 h3

/-- The rational ACES-fit curve with exposure folded in is monotone
non-decreasing on nonnegative inputs. -/
lemma aces_mono {x y : F} (h0 : 0 ≤ x) (hxy : x ≤ y) :
    (x * 1.5 * (2.51 * (x * 1.5) + 0.03)) / (x * 1.5 * (2.43 * (x * 1.5) + 0.59) + 0.14) ≤
    (y * 1.5 * (2.51 * (y * 1.5) + 0.03)) / (y * 1.5 * (2.43 * (y * 1.5) + 0.59) + 0.14) := by
  have hy : 0 ≤ y := h0.trans hxy
  have hdx : (0 : F) < x * 1.5 * (2.43 * (x * 1.5) + 0.59) + 0.14 := by nlinarith
  have hdy : (0 : F) < y * 1.5 * (2.43 * (y * 1.5) + 0.59) + 0.14 := by nlinarith
  rw [div_le_div_iff hdx hdy]
  nlinarith [mul_nonneg (mul_nonneg h0 hy) (sub_nonneg.mpr hxy),
    mul_nonneg h0 (sub_nonneg.mpr hxy), mul_nonneg hy (sub_nonneg.mpr hxy),
    sub_nonneg.mpr hxy]

/-- The tone-map channel stays in the unit interval: the clamp does the
work and the gamma power preserves it. -/
lemma tmChannel_mem (P : Prim F) (hpow : PowGammaRange P) (x : F) :
    0 ≤ tmChannel P x ∧ tmChannel P x ≤ 1 := by
  unfold tmChannel
  dsimp only
  obtain ⟨h0, h1⟩ := clampF_mem (x := (x * 1.5 * (2.51 * (x * 1.5) + 0.03)) /
    (x * 1.5 * (2.43 * (x * 1.5) + 0.59) + 0.14)) (zero_le_one (α := F))
  exact hpow _ h0 h1

/-- The tone-map channel is monotone on nonnegative inputs. -/
lemma tmChannel_mono (P : Prim F) (hpow : PowGammaMono P) {x y : F} (h0 : 0 ≤ x)
    (hxy : x ≤ y) : tmChannel P x ≤ tmChannel P y := by
  unfold tmChannel
  dsimp only
  refine hpow _ _ (clampF_mem _ zero_le_one).1 ?_
  exact clampF_mono _ _ (aces_mono h0 hxy)

/-- Every channel of the fs_main output is a tone-map channel of the
pre-tonemap color, and the alpha is 1. -/
lemma fs_main_shape (P : Prim F) (u : Uniforms F) (uv : Vec2 F) :
    ∃ c : Vec3 F, fs_main P u uv =
      ⟨tmChannel P c.x, tmChannel P c.y, tmChannel P c.z, 1⟩ := by
  unfold fs_main toneMapGamma
  dsimp only
  exact ⟨_, rfl⟩

/-- A fold step on a point whose components are already sorted by absolute
value: no swap fires and the affine contraction acts on the absolute
values. -/
lemma foldStep_sorted (P : Prim F) (v : Vec3 F) (a b c : F)
    (ha : |v.x| = a) (hb : |v.y| = b) (hc : |v.z| = c)
    (hab : b ≤ a) (hbc : c ≤ b) (w : Vec3 F)
    (hw : w = ⟨2 * a - 0.81, 2 * b - 0.81, 2 * c - 0.81⟩) :
    foldStep P (defaultU : Uniforms F) v = w := by
  unfold foldStep
  dsimp only
  simp only [vabs, ha, hb, hc, defaultU]
  rw [if_neg (show ¬ (⟨a, b, c⟩ : Vec3 F).x < (⟨a, b, c⟩ : Vec3 F).y from not_lt.mpr hab)]
  rw [if_neg (show ¬ (⟨a, b, c⟩ : Vec3 F).x < (⟨a, b, c⟩ : Vec3 F).z from
    not_lt.mpr (hbc.trans hab))]
  rw [if_neg (show ¬ (⟨a, b, c⟩ : Vec3 F).y < (⟨a, b, c⟩ : Vec3 F).z from not_lt.mpr hbc)]
  rw [hw]
  simp only [Vec3.mk.injEq]
  norm_num
  ring_nf
  norm_num

/-- fn map far out on the floor plane near the fractal base height: the
fold blows the point up so fast that the floor always wins. -/
lemma mapW_far (P : Prim F) (hs : SqrtSpec P) (ht : Trig0 P) (y : F)
    (h1 : (-2.2 : F) ≤ y) (h2 : y ≤ -1.8) :
    mapW P defaultU ⟨1000, y, 0⟩ = ⟨y + 2.2, 2⟩ := by
  have hy0 : y ≤ 0 := by linarith
  have s1 : foldStep P (defaultU : Uniforms F) ⟨1000, y, 0⟩ =
      ⟨1999.19, -2 * y - 0.81, -0.81⟩ := by
    refine foldStep_sorted P _ 1000 (-y) 0 ?_ ?_ ?_ (by linarith) (by linarith) _ ?_
    · dsimp only; rw [abs_eq_max_neg]; norm_num
    · dsimp only; exact abs_of_nonpos hy0
    · dsimp only; exact abs_zero
    · simp only [Vec3.mk.injEq]
      norm_num
      all_goals ring
  have s2 : foldStep P (defaultU : Uniforms F) ⟨1999.19, -2 * y - 0.81, -0.81⟩ =
      ⟨3997.57, -4 * y - 2.43, 0.81⟩ := by
    refine foldStep_sorted P _ 1999.19 (-2 * y - 0.81) 0.81 ?_ ?_ ?_ (by linarith)
      (by linarith) _ ?_
    · dsimp only; rw [abs_eq_max_neg]; norm_num
    · dsimp only; exact abs_of_nonneg (by linarith)
    · dsimp only; rw [abs_eq_max_neg]; norm_num
    · simp only [Vec3.mk.injEq]
      norm_num
      all_goals ring
  have s3 : foldStep P (defaultU : Uniforms F) ⟨3997.57, -4 * y - 2.43, 0.81⟩ =
      ⟨7994.33, -8 * y - 5.67, 0.81⟩ := by
    refine foldStep_sorted P _ 3997.57 (-4 * y - 2.43) 0.81 ?_ ?_ ?_ (by linarith)
      (by linarith) _ ?_
    · dsimp only; rw [abs_eq_max_neg]; norm_num
    · dsimp only; exact abs_of_nonneg (by linarith)
    · dsimp only; rw [abs_eq_max_neg]; norm_num
    · simp only [Vec3.mk.injEq]
      norm_num
      all_goals ring
  have s4 : foldStep P (defaultU : Uniforms F) ⟨7994.33, -8 * y - 5.67, 0.81⟩ =
      ⟨15987.85, -16 * y - 12.15, 0.81⟩ := by
    refine foldStep_sorted P _ 7994.33 (-8 * y - 5.67) 0.81 ?_ ?_ ?_ (by linarith)
      (by linarith) _ ?_
    · dsimp only; rw [abs_eq_max_neg]; norm_num
    · dsimp only; exact abs_of_nonneg (by linarith)
    · dsimp only; rw [abs_eq_max_neg]; norm_num
    · simp only [Vec3.mk.injEq]
      norm_num
      all_goals ring
  have hf : foldLoopNT P defaultU 4 ((⟨1000, y, 0⟩ : Vec3 F), 1) =
      (⟨15987.85, -16 * y - 12.15, 0.81⟩, 16) := by
    simp only [foldLoopNT, s1, s2, s3, s4]
    norm_num
  have hsd := sdFractal_time0 P ht _ _ _ hf
  have hlb : (100 : F) ≤ vlength P (⟨15987.85, -16 * y - 12.15, 0.81⟩ : Vec3 F) := by
    unfold vlength vdot
    dsimp only
    refine sqrt_lb P hs (by norm_num) ?_
    nlinarith [mul_self_nonneg (-16 * y - 12.15)]
  have hb : ((⟨1000, y, 0⟩ : Vec3 F)).y + 2.2 ≤ sdFractal P defaultU ⟨1000, y, 0⟩ - 0.01 := by
    dsimp only
    rw [hsd]
    have h3 := le_max_right (sdBox P (⟨15987.85, -16 * y - 12.15, 0.81⟩ : Vec3 F) ⟨1.2, 1.2, 4⟩ / 16)
      ((vlength P (⟨15987.85, -16 * y - 12.15, 0.81⟩ : Vec3 F) - 2.5) / 16)
    linarith
  rw [mapW_floor_of P defaultU _ hb]

/-- fn map at the origin with default parameters: the fractal undercuts
the floor, so the material is the fractal. -/
lemma mapW_origin (P : Prim F) (hs : SqrtSpec P) (ht : Trig0 P) :
    mapW P defaultU ⟨0, 0, 0⟩ = ⟨-0.034375, 1⟩ := by
  have hf : foldLoopNT P defaultU 4 ((⟨0, 0, 0⟩ : Vec3 F), 1) =
      (⟨0.81, 0.81, 0.81⟩, 16) := by
    norm_num [foldLoopNT, foldStep, vabs, abs_eq_max_neg, max_def, defaultU, Vec3.mk.injEq,
      Prod.ext_iff]
  have hsd := sdFractal_time0 P ht _ _ _ hf
  have hbox : sdBox P (⟨0.81, 0.81, 0.81⟩ : Vec3 F) ⟨1.2, 1.2, 4⟩ = -0.39 := by
    unfold sdBox
    dsimp only
    have hq : vmax (vsub (vabs (⟨0.81, 0.81, 0.81⟩ : Vec3 F)) ⟨1.2, 1.2, 4⟩) ⟨0, 0, 0⟩ =
        ⟨0, 0, 0⟩ := by
      norm_num [vmax, vsub, vabs, abs_eq_max_neg, max_def, Vec3.mk.injEq]
    rw [hq]
    unfold vlength vdot
    dsimp only
    rw [sqrt_eval P hs (a := 0) le_rfl (by norm_num)]
    norm_num [vsub, vabs, abs_eq_max_neg, max_def, min_def]
  have hsph : vlength P (⟨0.81, 0.81, 0.81⟩ : Vec3 F) ≤ 1.41 := by
    unfold vlength vdot
    dsimp only
    exact sqrt_ub P hs (by norm_num) (by norm_num) (by norm_num)
  have hval : sdFractal P defaultU ⟨0, 0, 0⟩ = -0.024375 := by
    rw [hsd, hbox, max_eq_left (by linarith)]
    norm_num
  have hcond : sdFractal P defaultU ⟨0, 0, 0⟩ - 0.01 < ((⟨0, 0, 0⟩ : Vec3 F)).y + 2.2 := by
    rw [hval]
    dsimp only
    norm_num
  rw [mapW_fractal_of P defaultU _ hcond, hval]
  norm_num [Vec2.mk.injEq]

/-- fn map at the far floor point (10, -2.2, 10): the fractal is several
units away, so the material is the floor at distance zero. -/
lemma mapW_farpoint (P : Prim F) (hs : SqrtSpec P) (ht : Trig0 P) :
    mapW P defaultU ⟨10, -2.2, 10⟩ = ⟨-2.2 + 2.2, 2⟩ := by
  have hf : foldLoopNT P defaultU 4 ((⟨10, -2.2, 10⟩ : Vec3 F), 1) =
      (⟨147.85, 147.85, 23.05⟩, 16) := by
    norm_num [foldLoopNT, foldStep, vabs, abs_eq_max_neg, max_def, defaultU, Vec3.mk.injEq,
      Prod.ext_iff]
  have hsd := sdFractal_time0 P ht _ _ _ hf
  have hlb : (147 : F) ≤ vlength P (⟨147.85, 147.85, 23.05⟩ : Vec3 F) := by
    unfold vlength vdot
    dsimp only
    exact sqrt_lb P hs (by norm_num) (by norm_num)
  have hb : ((⟨10, -2.2, 10⟩ : Vec3 F)).y + 2.2 ≤
      sdFractal P defaultU ⟨10, -2.2, 10⟩ - 0.01 := by
    dsimp only
    rw [hsd]
    have h3 := le_max_right (sdBox P (⟨147.85, 147.85, 23.05⟩ : Vec3 F) ⟨1.2, 1.2, 4⟩ / 16)
      ((vlength P (⟨147.85, 147.85, 23.05⟩ : Vec3 F) - 2.5) / 16)
    linarith
  rw [mapW_floor_of P defaultU _ hb]

/-- The ambient-occlusion probe evaluated on the far floor with a normal
of length 3: every probe lands on the floor, the occlusion sum is
negative, the clamp saturates at 1, and the normal factor doubles it. -/
lemma getAO_far (P : Prim F) (hs : SqrtSpec P) (ht : Trig0 P) :
    getAO P defaultU ⟨1000, -2.2, 0⟩ ⟨0, 3, 0⟩ = 2 := by
  have k0 : vadd (⟨1000, -2.2, 0⟩ : Vec3 F)
      (smul (0.01 + 0.12 * ((0 : Nat) : F) / 4) ⟨0, 3, 0⟩) = ⟨1000, -2.17, 0⟩ := by
    norm_num [vadd, smul, Vec3.mk.injEq]
  have k1 : vadd (⟨1000, -2.2, 0⟩ : Vec3 F)
      (smul (0.01 + 0.12 * ((0 + 1 : Nat) : F) / 4) ⟨0, 3, 0⟩) = ⟨1000, -2.08, 0⟩ := by
    norm_num [vadd, smul, Vec3.mk.injEq]
  have k2 : vadd (⟨1000, -2.2, 0⟩ : Vec3 F)
      (smul (0.01 + 0.12 * ((0 + 1 + 1 : Nat) : F) / 4) ⟨0, 3, 0⟩) = ⟨1000, -1.99, 0⟩ := by
    norm_num [vadd, smul, Vec3.mk.injEq]
  have k3 : vadd (⟨1000, -2.2, 0⟩ : Vec3 F)
      (smul (0.01 + 0.12 * ((0 + 1 + 1 + 1 : Nat) : F) / 4) ⟨0, 3, 0⟩) =
      ⟨1000, -1.9, 0⟩ := by
    norm_num [vadd, smul, Vec3.mk.injEq]
  have k4 : vadd (⟨1000, -2.2, 0⟩ : Vec3 F)
      (smul (0.01 + 0.12 * ((0 + 1 + 1 + 1 + 1 : Nat) : F) / 4) ⟨0, 3, 0⟩) =
      ⟨1000, -1.81, 0⟩ := by
    norm_num [vadd, smul, Vec3.mk.injEq]
  unfold getAO
  simp only [getAOAux, k0, k1, k2, k3, k4,
    mapW_far P hs ht (-2.17) (by norm_num) (by norm_num),
    mapW_far P hs ht (-2.08) (by norm_num) (by norm_num),
    mapW_far P hs ht (-1.99) (by norm_num) (by norm_num),
    mapW_far P hs ht (-1.9) (by norm_num) (by norm_num),
    mapW_far P hs ht (-1.81) (by norm_num) (by norm_num)]
  norm_num [clampF, min_def, max_def]

/-- The real square root satisfies the square-root specification. -/
lemma sqrtSpec_real :
    SqrtSpec (Prim.mk Real.sqrt Real.sin Real.cos (fun x => Int.fract x)
      (fun x y => Real.rpow x y) Real.exp) := by
  intro x hx
  exact ⟨Real.sqrt_nonneg x, Real.sq_sqrt hx⟩

/-- The real sine and cosine vanish and equal one at zero. -/
lemma trig0_real :
    Trig0 (Prim.mk Real.sqrt Real.sin Real.cos (fun x => Int.fract x)
      (fun x y => Real.rpow x y) Real.exp) :=
  ⟨Real.sin_zero, Real.cos_zero⟩

/-- The real power maps the unit interval into itself at the gamma
exponent. -/
lemma powGammaRange_real :
    PowGammaRange (Prim.mk Real.sqrt Real.sin Real.cos (fun x => Int.fract x)
      (fun x y => Real.rpow x y) Real.exp) := by
  intro x h0 h1
  exact ⟨Real.rpow_nonneg h0 _, Real.rpow_le_one h0 h1 (by norm_num)⟩

/-- The real power is monotone in the base at the gamma exponent. -/
lemma powGammaMono_real :
    PowGammaMono (Prim.mk Real.sqrt Real.sin Real.cos (fun x => Int.fract x)
      (fun x y => Real.rpow x y) Real.exp) := by
  intro a b h0 hab
  exact Real.rpow_le_rpow h0 hab (by norm_num)

/-- C1 (amended): for the sphere-tracing Raymarcher with default
Parameters at time 0, the ray with origin (0,0,20) and direction (0,0,-1)
returns hit flag true with returned distance t below the far bound 30,
and the ray with direction (0,1,0) returns hit flag false with returned
distance strictly greater than 30 - the first advanced t beyond the far
bound, not the bound itself. -/
theorem C1_raymarch_termination (P : Prim F) (hs : SqrtSpec P) (ht : Trig0 P) :
    ((raymarch P (defaultU : Uniforms F) ⟨0, 0, 20⟩ ⟨0, 0, -1⟩).z = 1 ∧
      (raymarch P (defaultU : Uniforms F) ⟨0, 0, 20⟩ ⟨0, 0, -1⟩).x < 30) ∧
    ((raymarch P (defaultU : Uniforms F) ⟨0, 0, 20⟩ ⟨0, 1, 0⟩).z = 0 ∧
      30 < (raymarch P (defaultU : Uniforms F) ⟨0, 0, 20⟩ ⟨0, 1, 0⟩).x) := by
  rw [raymarch_hit P hs ht, raymarch_miss P hs ht]
  norm_num

/-- C1 counterexample: the claim as stated requires the miss ray to return
t exactly equal to the far bound 30, but the march advances t beyond the
bound before giving up and returns 50.9026518. -/
theorem C1_raymarch_termination_cex :
    (raymarch (Prim.mk Real.sqrt Real.sin Real.cos (fun x => Int.fract x)
        (fun x y => Real.rpow x y) Real.exp)
      (defaultU : Uniforms ℝ) ⟨0, 0, 20⟩ ⟨0, 1, 0⟩).x ≠ 30 := by
  rw [raymarch_miss _ sqrtSpec_real trig0_real]
  norm_num

/-- C1 witness: the amended statement instantiated with the real
primitives. -/
theorem C1_raymarch_termination_witness :
    ((raymarch (Prim.mk Real.sqrt Real.sin Real.cos (fun x => Int.fract x)
        (fun x y => Real.rpow x y) Real.exp)
        (defaultU : Uniforms ℝ) ⟨0, 0, 20⟩ ⟨0, 0, -1⟩).z = 1 ∧
      (raymarch (Prim.mk Real.sqrt Real.sin Real.cos (fun x => Int.fract x)
        (fun x y => Real.rpow x y) Real.exp)
        (defaultU : Uniforms ℝ) ⟨0, 0, 20⟩ ⟨0, 0, -1⟩).x < 30) ∧
    ((raymarch (Prim.mk Real.sqrt Real.sin Real.cos (fun x => Int.fract x)
        (fun x y => Real.rpow x y) Real.exp)
        (defaultU : Uniforms ℝ) ⟨0, 0, 20⟩ ⟨0, 1, 0⟩).z = 0 ∧
      30 < (raymarch (Prim.mk Real.sqrt Real.sin Real.cos (fun x => Int.fract x)
        (fun x y => Real.rpow x y) Real.exp)
        (defaultU : Uniforms ℝ) ⟨0, 0, 20⟩ ⟨0, 1, 0⟩).x) :=
  C1_raymarch_termination _ sqrtSpec_real trig0_real

/-- C2: fn map reports the fractal material exactly when the biased
fractal distance undercuts the floor distance, and the floor otherwise;
with default Parameters at time 0 the origin reports Fractal (id 1) and
the far floor point (10, -2.2, 10) reports Floor (id 2). -/
theorem C2_material_tiebreak :
    (∀ (P : Prim F) (u : Uniforms F) (p : Vec3 F),
      ((mapW P u p).y = 1 ↔ sdFractal P u p - 0.01 < p.y + 2.2) ∧
      (¬ sdFractal P u p - 0.01 < p.y + 2.2 → (mapW P u p).y = 2)) ∧
    (∀ P : Prim F, SqrtSpec P → Trig0 P →
      (mapW P (defaultU : Uniforms F) ⟨0, 0, 0⟩).y = 1 ∧
      (mapW P (defaultU : Uniforms F) ⟨10, -2.2, 10⟩).y = 2) := by
  constructor
  · intro P u p
    have he : p.y - (-2.2 : F) = p.y + 2.2 := by ring
    constructor
    · unfold mapW
      dsimp only
      rw [he]
      by_cases h : sdFractal P u p - 0.01 < p.y + 2.2
      · rw [if_pos h]
        simpa using h
      · rw [if_neg h]
        dsimp only
        constructor
        · intro h2
          exact absurd h2 (by norm_num)
        · intro h2
          exact absurd h2 h
    · intro h
      unfold mapW
      dsimp only
      rw [he, if_neg h]
  · intro P hs ht
    rw [mapW_origin P hs ht, mapW_farpoint P hs ht]
    exact ⟨rfl, rfl⟩

/-- C2 witness: the concrete tie-break facts instantiated with the real
primitives. -/
theorem C2_material_tiebreak_witness :
    (mapW (Prim.mk Real.sqrt Real.sin Real.cos (fun x => Int.fract x)
        (fun x y => Real.rpow x y) Real.exp) (defaultU : Uniforms ℝ) ⟨0, 0, 0⟩).y = 1 ∧
    (mapW (Prim.mk Real.sqrt Real.sin Real.cos (fun x => Int.fract x)
        (fun x y => Real.rpow x y) Real.exp) (defaultU : Uniforms ℝ) ⟨10, -2.2, 10⟩).y = 2 :=
  (C2_material_tiebreak (F := ℝ)).2 _ sqrtSpec_real trig0_real

/-- C3 (amended): getShadow always lies in the unit interval; getAO lies
in the unit interval whenever the y component of the supplied normal lies
in the interval from -1 to 1, as it does for the normalized normals the
renderer passes; and every channel of the tone-mapped, gamma-corrected
fs_main output lies in the unit interval whenever the power primitive
maps the unit interval into itself at the gamma exponent. -/
theorem C3_clamped_ranges :
    (∀ (P : Prim F) (u : Uniforms F) (ro rd : Vec3 F) (tmin tmax k : F),
      0 ≤ getShadow P u ro rd tmin tmax k ∧ getShadow P u ro rd tmin tmax k ≤ 1) ∧
    (∀ (P : Prim F) (u : Uniforms F) (p n : Vec3 F), -1 ≤ n.y → n.y ≤ 1 →
      0 ≤ getAO P u p n ∧ getAO P u p n ≤ 1) ∧
    (∀ P : Prim F, PowGammaRange P → ∀ (u : Uniforms F) (uv : Vec2 F),
      (0 ≤ (fs_main P u uv).x ∧ (fs_main P u uv).x ≤ 1) ∧
      (0 ≤ (fs_main P u uv).y ∧ (fs_main P u uv).y ≤ 1) ∧
      (0 ≤ (fs_main P u uv).z ∧ (fs_main P u uv).z ≤ 1)) := by
  refine ⟨?_, ?_, ?_⟩
  · intro P u ro rd tmin tmax k
    unfold getShadow
    exact clampF_mem _ zero_le_one
  · intro P u p n h1 h2
    obtain ⟨c0, c1⟩ := clampF_mem (1 - 3 * getAOAux P u p n 5 0 0 1) (zero_le_one (α := F))
    unfold getAO
    constructor
    · exact mul_nonneg c0 (by linarith)
    · exact mul_le_one c1 (by linarith) (by linarith)
  · intro P hpow u uv
    obtain ⟨c, hc⟩ := fs_main_shape P u uv
    rw [hc]
    exact ⟨tmChannel_mem P hpow c.x, tmChannel_mem P hpow c.y, tmChannel_mem P hpow c.z⟩

/-- C3 counterexample: for the finite but non-unit normal (0,3,0) at a
far floor point, getAO returns 2, outside the unit interval - the claim
as stated quantifies over all finite inputs. -/
theorem C3_clamped_ranges_cex :
    ¬ (∀ p n : Vec3 ℝ,
        0 ≤ getAO (Prim.mk Real.sqrt Real.sin Real.cos (fun x => Int.fract x)
          (fun x y => Real.rpow x y) Real.exp) defaultU p n ∧
        getAO (Prim.mk Real.sqrt Real.sin Real.cos (fun x => Int.fract x)
          (fun x y => Real.rpow x y) Real.exp) defaultU p n ≤ 1) := by
  intro hall
  have h := (hall ⟨1000, -2.2, 0⟩ ⟨0, 3, 0⟩).2
  rw [getAO_far _ sqrtSpec_real trig0_real] at h
  norm_num at h

/-- C3 witness: the amended ranges instantiated with the real primitives
at concrete inputs. -/
theorem C3_clamped_ranges_witness :
    (0 ≤ getShadow (Prim.mk Real.sqrt Real.sin Real.cos (fun x => Int.fract x)
        (fun x y => Real.rpow x y) Real.exp) (defaultU : Uniforms ℝ)
        ⟨0, 0, 20⟩ ⟨0, 1, 0⟩ 0.05 10 16 ∧
      getShadow (Prim.mk Real.sqrt Real.sin Real.cos (fun x => Int.fract x)
        (fun x y => Real.rpow x y) Real.exp) (defaultU : Uniforms ℝ)
        ⟨0, 0, 20⟩ ⟨0, 1, 0⟩ 0.05 10 16 ≤ 1) ∧
    (0 ≤ getAO (Prim.mk Real.sqrt Real.sin Real.cos (fun x => Int.fract x)
        (fun x y => Real.rpow x y) Real.exp) (defaultU : Uniforms ℝ)
        ⟨1000, -2.2, 0⟩ ⟨0, 1, 0⟩ ∧
      getAO (Prim.mk Real.sqrt Real.sin Real.cos (fun x => Int.fract x)
        (fun x y => Real.rpow x y) Real.exp) (defaultU : Uniforms ℝ)
        ⟨1000, -2.2, 0⟩ ⟨0, 1, 0⟩ ≤ 1) ∧
    (0 ≤ (fs_main (Prim.mk Real.sqrt Real.sin Real.cos (fun x => Int.fract x)
        (fun x y => Real.rpow x y) Real.exp) (defaultU : Uniforms ℝ) ⟨0.5, 0.5⟩).x ∧
      (fs_main (Prim.mk Real.sqrt Real.sin Real.cos (fun x => Int.fract x)
        (fun x y => Real.rpow x y) Real.exp) (defaultU : Uniforms ℝ) ⟨0.5, 0.5⟩).x ≤ 1) :=
  ⟨(C3_clamped_ranges (F := ℝ)).1 _ _ _ _ _ _ _,
   (C3_clamped_ranges (F := ℝ)).2.1 _ _ _ _ (by norm_num) (by norm_num),
   ((C3_clamped_ranges (F := ℝ)).2.2 _ powGammaRange_real _ _).1⟩

/-- C4: with vignette exponent 0 the vignette multiplier is exactly 1 at
every UV (given the pow law at exponent 0); the interior term attains its
maximum value 1 at the frame center among all UVs in the unit square, so
the multiplier is exactly 1 at the center for every exponent (given the
pow law at base 1). -/
theorem C4_vignette_identity :
    (∀ P : Prim F, (∀ x : F, P.powf x 0 = 1) → ∀ q : Vec2 F, vignetteFactor P q 0 = 1) ∧
    ((16 : F) * 0.5 * 0.5 * (1 - 0.5) * (1 - 0.5) = 1 ∧
      ∀ a b : F, 0 ≤ a → a ≤ 1 → 0 ≤ b → b ≤ 1 →
        16 * a * b * (1 - a) * (1 - b) ≤ 1) ∧
    (∀ (P : Prim F) (e : F), P.powf 1 e = 1 → vignetteFactor P ⟨0.5, 0.5⟩ e = 1) := by
  refine ⟨?_, ⟨by norm_num, ?_⟩, ?_⟩
  · intro P hp q
    unfold vignetteFactor
    rw [hp]
    norm_num
  · intro a b ha0 ha1 hb0 hb1
    have h1 : 4 * (a * (1 - a)) ≤ 1 := by nlinarith [sq_nonneg (2 * a - 1)]
    have h2 : 4 * (b * (1 - b)) ≤ 1 := by nlinarith [sq_nonneg (2 * b - 1)]
    have h4 : 0 ≤ 4 * (b * (1 - b)) := by
      have := mul_nonneg hb0 (by linarith : (0 : F) ≤ 1 - b)
      linarith
    nlinarith [mul_le_one h1 h4 h2]
  · intro P e hp
    unfold vignetteFactor
    have hb : (16 : F) * ((⟨0.5, 0.5⟩ : Vec2 F)).x * ((⟨0.5, 0.5⟩ : Vec2 F)).y *
        (1 - ((⟨0.5, 0.5⟩ : Vec2 F)).x) * (1 - ((⟨0.5, 0.5⟩ : Vec2 F)).y) = 1 := by
      norm_num
    rw [hb, hp]
    norm_num

/-- C4 witness: both vignette identities instantiated with the real power
function at a concrete off-center UV. -/
theorem C4_vignette_identity_witness :
    vignetteFactor (Prim.mk Real.sqrt Real.sin Real.cos (fun x => Int.fract x)
      (fun x y => Real.rpow x y) Real.exp) ⟨0.25, 0.75⟩ 0 = 1 ∧
    vignetteFactor (Prim.mk Real.sqrt Real.sin Real.cos (fun x => Int.fract x)
      (fun x y => Real.rpow x y) Real.exp) ⟨0.5, 0.5⟩ 0.2 = 1 ∧
    (16 : ℝ) * 0.25 * 0.75 * (1 - 0.25) * (1 - 0.75) ≤ 1 :=
  ⟨(C4_vignette_identity (F := ℝ)).1 _ (fun x => Real.rpow_zero x) _,
   (C4_vignette_identity (F := ℝ)).2.2 _ _ (Real.one_rpow _),
   (C4_vignette_identity (F := ℝ)).2.1.2 0.25 0.75 (by norm_num) (by norm_num)
     (by norm_num) (by norm_num)⟩

/-- C5: the tone-map stage sends black to black (given the pow law at
base 0), and each channel of the stage is monotone non-decreasing on
nonnegative inputs (given monotonicity of the gamma power). -/
theorem C5_tonemap_properties :
    (∀ P : Prim F, P.powf 0 (1 / 2.2) = 0 → toneMapGamma P ⟨0, 0, 0⟩ = ⟨0, 0, 0⟩) ∧
    (∀ P : Prim F, PowGammaMono P → ∀ x y : F, 0 ≤ x → x ≤ y →
      tmChannel P x ≤ tmChannel P y) := by
  constructor
  · intro P hp
    unfold toneMapGamma tmChannel
    dsimp only
    have hc : clampF (((0 : F) * 1.5 * (2.51 * (0 * 1.5) + 0.03)) /
        ((0 : F) * 1.5 * (2.43 * (0 * 1.5) + 0.59) + 0.14)) 0 1 = 0 := by
      norm_num [clampF, max_def, min_def]
    rw [hc, hp]
  · intro P hm x y h0 hxy
    exact tmChannel_mono P hm h0 hxy

/-- C5 witness: the tone-map fixed point and a concrete monotonicity
instance with the real power function. -/
theorem C5_tonemap_properties_witness :
    toneMapGamma (Prim.mk Real.sqrt Real.sin Real.cos (fun x => Int.fract x)
      (fun x y => Real.rpow x y) Real.exp) ⟨0, 0, 0⟩ = ⟨0, 0, 0⟩ ∧
    tmChannel (Prim.mk Real.sqrt Real.sin Real.cos (fun x => Int.fract x)
      (fun x y => Real.rpow x y) Real.exp) 0.25 ≤
    tmChannel (Prim.mk Real.sqrt Real.sin Real.cos (fun x => Int.fract x)
      (fun x y => Real.rpow x y) Real.exp) 1 :=
  ⟨(C5_tonemap_properties (F := ℝ)).1 _ (Real.zero_rpow (by norm_num)),
   (C5_tonemap_properties (F := ℝ)).2 _ powGammaMono_real 0.25 1 (by norm_num) (by norm_num)⟩

/-- C6: with electricIntensity 0 the per-sample composited color equals
the color computed without the VolumetricArcField pass and the glow march
itself returns zero; and the glow march returns exactly zero whenever
every marched sample point within the cap keeps fractal distance at
least 0.4. -/
theorem C6_volumetric_gating :
    (∀ (P : Prim F) (u : Uniforms F) (uv : Vec2 F) (i aa : Nat),
      u.electricIntensity = 0 → sampleColor P u uv i aa = sampleColorNoGlow P u uv i aa) ∧
    (∀ (P : Prim F) (u : Uniforms F) (ro rd : Vec3 F) (maxT : F),
      u.electricIntensity = 0 → getGlow P u ro rd maxT = ⟨0, 0, 0⟩) ∧
    (∀ (P : Prim F) (u : Uniforms F) (ro rd : Vec3 F) (maxT : F),
      (∀ k : Nat, k < 35 →
        0.5 + hashW P (smul u.time rd) * 0.2 + 0.15 * (k : F) ≤ min maxT 15 →
        (0.4 : F) ≤ sdFractal P u
          (vadd ro (smul (0.5 + hashW P (smul u.time rd) * 0.2 + 0.15 * (k : F)) rd))) →
      getGlow P u ro rd maxT = ⟨0, 0, 0⟩) := by
  refine ⟨?_, ?_, ?_⟩
  · intro P u uv i aa hI
    unfold sampleColor sampleColorNoGlow
    dsimp only
    rw [hI, if_neg (by norm_num)]
  · intro P u ro rd maxT hI
    unfold getGlow
    dsimp only
    exact getGlowAux_izero P u ro rd _ _ hI 35 _ _
  · intro P u ro rd maxT hk
    unfold getGlow
    dsimp only
    exact getGlowAux_skip P u ro rd _ _ 35 _ _ hk

/-- C6 witness: the intensity gate with the arc slider at zero, and the
proximity gate along a ray far above the fractal, with real primitives. -/
theorem C6_volumetric_gating_witness :
    sampleColor (Prim.mk Real.sqrt Real.sin Real.cos (fun x => Int.fract x)
      (fun x y => Real.rpow x y) Real.exp) (defaultUE0 : Uniforms ℝ) ⟨0.5, 0.5⟩ 0 1 =
    sampleColorNoGlow (Prim.mk Real.sqrt Real.sin Real.cos (fun x => Int.fract x)
      (fun x y => Real.rpow x y) Real.exp) (defaultUE0 : Uniforms ℝ) ⟨0.5, 0.5⟩ 0 1 ∧
    getGlow (Prim.mk Real.sqrt Real.sin Real.cos (fun x => Int.fract x)
      (fun x y => Real.rpow x y) Real.exp) (defaultU : Uniforms ℝ)
      ⟨0, 1000, 0⟩ ⟨0, 1, 0⟩ 20 = ⟨0, 0, 0⟩ := by
  constructor
  · exact (C6_volumetric_gating (F := ℝ)).1 _ _ _ _ _ rfl
  · refine (C6_volumetric_gating (F := ℝ)).2.2 _ _ _ _ _ ?_
    intro k hk35 hle
    have hhash : hashW (Prim.mk Real.sqrt Real.sin Real.cos (fun x => Int.fract x)
        (fun x y => Real.rpow x y) Real.exp)
        (smul (defaultU : Uniforms ℝ).time ⟨0, 1, 0⟩) = 0 := by
      norm_num [hashW, vfract, smul, vdot, defaultU, Int.fract_zero]
    rw [hhash]
    have hk0 : (0 : ℝ) ≤ 0.15 * (k : ℝ) := by positivity
    have hpt : vadd (⟨0, 1000, 0⟩ : Vec3 ℝ)
        (smul (0.5 + 0 * 0.2 + 0.15 * (k : ℝ)) ⟨0, 1, 0⟩) =
        ⟨0, 1000 + (0.5 + 0 * 0.2 + 0.15 * (k : ℝ)), 0⟩ := by
      simp only [vadd, smul, Vec3.mk.injEq]
      refine ⟨by ring, by ring, by ring⟩
    rw [hpt]
    rw [sdFractal_axisY _ sqrtSpec_real trig0_real _ (by linarith)]
    linarith

/-- C7: the fragment kernel is a pure function of the UV and the uniform
block; two evaluations at equal inputs return identical RGBA colors. -/
theorem C7_determinism (P : Prim F) (u1 u2 : Uniforms F) (uv1 uv2 : Vec2 F)
    (hu : u1 = u2) (huv : uv1 = uv2) : fs_main P u1 uv1 = fs_main P u2 uv2 := by
  rw [hu, huv]

/-- C7 witness: the kernel evaluated twice at the default parameters and
the center UV gives the same color. -/
theorem C7_determinism_witness :
    fs_main (Prim.mk Real.sqrt Real.sin Real.cos (fun x => Int.fract x)
      (fun x y => Real.rpow x y) Real.exp) (defaultU : Uniforms ℝ) ⟨0.5, 0.5⟩ =
    fs_main (Prim.mk Real.sqrt Real.sin Real.cos (fun x => Int.fract x)
      (fun x y => Real.rpow x y) Real.exp) (defaultU : Uniforms ℝ) ⟨0.5, 0.5⟩ :=
  C7_determinism _ _ _ _ _ rfl rfl

/-- C8 (amended): the GGX, Schlick-GGX and specular denominators of the
PBR equations are floored by their positive epsilons for all inputs; the
per-light inverse-square attenuation denominator is not floored and
vanishes when the shaded point coincides with a light position. -/
theorem C8_pbr_epsilon_floors :
    (∀ (N H : Vec3 F) (roughness : F), (0.00001 : F) ≤ ggxDivisor N H roughness) ∧
    (∀ NdotV roughness : F, (0.00001 : F) ≤ schlickDivisor NdotV roughness) ∧
    (∀ n v L : Vec3 F, (0.0001 : F) ≤ specDivisor n v L) := by
  refine ⟨?_, ?_, ?_⟩
  · intro N H r
    unfold ggxDivisor
    exact le_max_right _ _
  · intro a r
    unfold schlickDivisor
    exact le_max_right _ _
  · intro n v L
    unfold specDivisor
    have h1 : 0 ≤ 4 * max (vdot n v) 0 * max (vdot n L) 0 :=
      mul_nonneg (mul_nonneg (by norm_num) (le_max_right _ _)) (le_max_right _ _)
    linarith

/-- C8 counterexample: at the position of the first point light the
attenuation denominator of renderPBR is exactly zero - no epsilon floors
that division. -/
theorem C8_pbr_epsilon_floors_cex :
    attenDivisor (Prim.mk Real.sqrt Real.sin Real.cos (fun x => Int.fract x)
      (fun x y => Real.rpow x y) Real.exp) ⟨-2, 5, 3⟩ ⟨-2, 5, 3⟩ = 0 := by
  unfold attenDivisor vlength vdot vsub
  dsimp only
  norm_num

/-- C9: the trap accumulator of the KIFS fold is dead code - sdFractal
with the trap computation removed equals sdFractal as written, as a
function of the point, the parameters and the primitives. -/
theorem C9_trap_dead_code (P : Prim F) (u : Uniforms F) (p : Vec3 F) :
    sdFractalNT P u p = sdFractal P u p :=
  (sdFractal_eq_NT P u p).symm

/-- C10: with nonnegative electric intensity and color the glow march
returns a componentwise nonnegative color, so the additive electricity
pass can only brighten each channel of the composited sample color. -/
theorem C10_glow_nonneg (P : Prim F) (u : Uniforms F)
    (hI : 0 ≤ u.electricIntensity) (h1 : 0 ≤ u.electricColor.x)
    (h2 : 0 ≤ u.electricColor.y) (h3 : 0 ≤ u.electricColor.z) :
    (∀ (ro rd : Vec3 F) (maxT : F),
      0 ≤ (getGlow P u ro rd maxT).x ∧ 0 ≤ (getGlow P u ro rd maxT).y ∧
      0 ≤ (getGlow P u ro rd maxT).z) ∧
    (∀ (uv : Vec2 F) (i aa : Nat),
      (sampleColorNoGlow P u uv i aa).x ≤ (sampleColor P u uv i aa).x ∧
      (sampleColorNoGlow P u uv i aa).y ≤ (sampleColor P u uv i aa).y ∧
      (sampleColorNoGlow P u uv i aa).z ≤ (sampleColor P u uv i aa).z) := by
  have hg : ∀ (ro rd : Vec3 F) (maxT : F),
      0 ≤ (getGlow P u ro rd maxT).x ∧ 0 ≤ (getGlow P u ro rd maxT).y ∧
      0 ≤ (getGlow P u ro rd maxT).z := by
    intro ro rd maxT
    unfold getGlow
    dsimp only
    exact getGlowAux_nonneg P u ro rd _ _ hI h1 h2 h3 35 _ _ le_rfl le_rfl le_rfl
  refine ⟨hg, ?_⟩
  intro uv i aa
  unfold sampleColor sampleColorNoGlow
  dsimp only
  by_cases hgate : (0.01 : F) < u.electricIntensity
  · rw [if_pos hgate]
    obtain ⟨g1, g2, g3⟩ := hg u.cameraPos.xyz (sampleRd P u uv i aa)
      (raymarch P u u.cameraPos.xyz (sampleRd P u uv i aa)).x
    refine ⟨?_, ?_, ?_⟩ <;>
      · simp only [vadd]
        linarith
  · rw [if_neg hgate]
    exact ⟨le_rfl, le_rfl, le_rfl⟩

/-- C10 witness: the glow nonnegativity and the brighten-only property at
the default parameters with the real primitives. -/
theorem C10_glow_nonneg_witness :
    (0 ≤ (getGlow (Prim.mk Real.sqrt Real.sin Real.cos (fun x => Int.fract x)
        (fun x y => Real.rpow x y) Real.exp) (defaultU : Uniforms ℝ)
        ⟨0, 0, 20⟩ ⟨0, 0, -1⟩ 30).x ∧
      0 ≤ (getGlow (Prim.mk Real.sqrt Real.sin Real.cos (fun x => Int.fract x)
        (fun x y => Real.rpow x y) Real.exp) (defaultU : Uniforms ℝ)
        ⟨0, 0, 20⟩ ⟨0, 0, -1⟩ 30).y ∧
      0 ≤ (getGlow (Prim.mk Real.sqrt Real.sin Real.cos (fun x => Int.fract x)
        (fun x y => Real.rpow x y) Real.exp) (defaultU : Uniforms ℝ)
        ⟨0, 0, 20⟩ ⟨0, 0, -1⟩ 30).z) ∧
    ((sampleColorNoGlow (Prim.mk Real.sqrt Real.sin Real.cos (fun x => Int.fract x)
        (fun x y => Real.rpow x y) Real.exp) (defaultU : Uniforms ℝ) ⟨0.5, 0.5⟩ 0 1).x ≤
      (sampleColor (Prim.mk Real.sqrt Real.sin Real.cos (fun x => Int.fract x)
        (fun x y => Real.rpow x y) Real.exp) (defaultU : Uniforms ℝ) ⟨0.5, 0.5⟩ 0 1).x ∧
      (sampleColorNoGlow (Prim.mk Real.sqrt Real.sin Real.cos (fun x => Int.fract x)
        (fun x y => Real.rpow x y) Real.exp) (defaultU : Uniforms ℝ) ⟨0.5, 0.5⟩ 0 1).y ≤
      (sampleColor (Prim.mk Real.sqrt Real.sin Real.cos (fun x => Int.fract x)
        (fun x y => Real.rpow x y) Real.exp) (defaultU : Uniforms ℝ) ⟨0.5, 0.5⟩ 0 1).y ∧
      (sampleColorNoGlow (Prim.mk Real.sqrt Real.sin Real.cos (fun x => Int.fract x)
        (fun x y => Real.rpow x y) Real.exp) (defaultU : Uniforms ℝ) ⟨0.5, 0.5⟩ 0 1).z ≤
      (sampleColor (Prim.mk Real.sqrt Real.sin Real.cos (fun x => Int.fract x)
        (fun x y => Real.rpow x y) Real.exp) (defaultU : Uniforms ℝ) ⟨0.5, 0.5⟩ 0 1).z) :=
  ⟨(C10_glow_nonneg _ (defaultU : Uniforms ℝ) (by norm_num [defaultU])
      (by norm_num [defaultU]) (by norm_num [defaultU]) (by norm_num [defaultU])).1 _ _ _,
   (C10_glow_nonneg _ (defaultU : Uniforms ℝ) (by norm_num [defaultU])
      (by norm_num [defaultU]) (by norm_num [defaultU]) (by norm_num [defaultU])).2 _ _ _⟩

end WGSL
